import Mathlib

set_option maxRecDepth 16000

/-!
Verification of the node-obfuscator core: the configuration-inheritance
resolver, the key-derivation cache and the encode/decode token protocol.

The JavaScript objects of the source are embedded as follows.  A JS value
that may be `undefined` is an `Option`; an *own field* of a configuration
override object whose value may itself be `undefined` is an
`Option (Option _)` (outer `none` = the field is absent, `some none` = the
field is present with value `undefined`), because the `extend` deep-merge
of the source skips exactly the values that are `undefined`.  Registries
(`algSettings` objects) are association lists in insertion order, matching
`Object.getOwnPropertyNames` enumeration order for string keys.  Buffers
are `List Nat`; JS strings are Lean `String` / `List Char`.  Thrown
exceptions are the `Except` monad.  The cryptographic primitives
(pbkdf2, cipher, binary/text codecs, `Date.parse`) are external
collaborators of the library and are abstracted as a `CryptoProvider`
record; randomness (`Crypto.randomBytes`) is injected as an explicit `iv`
argument.
-/

/-- One algorithm settings bundle (`AlgSettings` of the source).  Every
field that the JS object may lack, or hold `undefined` in, is an `Option`. -/
structure AlgSettings where
  name : Option String
  base : Option String
  notes : Option String
  password : Option String
  salt : Option String
  iterations : Option Nat
  hash : Option String
  alg : Option String
  stringEncoding : Option String
  binEncoding : Option String
  doNotEncodeAfter : Option String
deriving DecidableEq, Repr

/-- The all-absent settings object, i.e. the empty JS object `{}`. -/
def emptySettings : AlgSettings :=
  { name := none, base := none, notes := none, password := none, salt := none,
    iterations := none, hash := none, alg := none, stringEncoding := none,
    binEncoding := none, doNotEncodeAfter := none }

/-- An override-layer entry for one algorithm: each field is
`Option (Option _)` so that "own field with value `undefined`" (`some none`)
is distinguished from "field absent" (`none`), the distinction the
source's `extend` merge collapses. -/
structure AlgPatch where
  name : Option (Option String)
  base : Option (Option String)
  notes : Option (Option String)
  password : Option (Option String)
  salt : Option (Option String)
  iterations : Option (Option Nat)
  hash : Option (Option String)
  alg : Option (Option String)
  stringEncoding : Option (Option String)
  binEncoding : Option (Option String)
  doNotEncodeAfter : Option (Option String)
deriving DecidableEq, Repr

/-- The empty patch `{}`. -/
def emptyPatch : AlgPatch :=
  { name := none, base := none, notes := none, password := none, salt := none,
    iterations := none, hash := none, alg := none, stringEncoding := none,
    binEncoding := none, doNotEncodeAfter := none }

/-- A registry: the `algSettings` map, as an insertion-ordered association list. -/
abbrev Registry := List (String × AlgSettings)

/-- One override layer's `algSettings` map. -/
abbrev Layer := List (String × AlgPatch)

/-- Association-list lookup, i.e. JS property access `obj[key]`. -/
def rlookup {α : Type} : List (String × α) → String → Option α
  | [], _ => none
  | (k, v) :: rest, key => if k = key then some v else rlookup rest key

/-- Replace the value stored under an existing key, keeping its position,
i.e. JS assignment `obj[key] = v` for a key that is already present. -/
def rupdate (reg : Registry) (k : String) (v : AlgSettings) : Registry :=
  reg.map (fun e => if e.1 = k then (k, v) else e)

/-- One field step of the `extend` deep merge: the patch field overrides the
target only when it is an own field whose value is not `undefined`. -/
def patchField {α : Type} (t : Option α) : Option (Option α) → Option α
  | some (some v) => some v
  | _ => t

/-- `extend(true, target, patch)` on one settings object, field by field. -/
def mergeEntry (t : AlgSettings) (p : AlgPatch) : AlgSettings :=
  { name := patchField t.name p.name,
    base := patchField t.base p.base,
    notes := patchField t.notes p.notes,
    password := patchField t.password p.password,
    salt := patchField t.salt p.salt,
    iterations := patchField t.iterations p.iterations,
    hash := patchField t.hash p.hash,
    alg := patchField t.alg p.alg,
    stringEncoding := patchField t.stringEncoding p.stringEncoding,
    binEncoding := patchField t.binEncoding p.binEncoding,
    doNotEncodeAfter := patchField t.doNotEncodeAfter p.doNotEncodeAfter }

/-- Merge one layer entry into a registry: an existing key is deep-merged in
place, a new key is cloned to the end, as `extend` does for object maps. -/
def setOrMerge (reg : Registry) (k : String) (p : AlgPatch) : Registry :=
  if (rlookup reg k).isSome then
    reg.map (fun e => if e.1 = k then (k, mergeEntry e.2 p) else e)
  else
    reg ++ [(k, mergeEntry emptySettings p)]

/-- Deep-merge a whole override layer into a registry. -/
def applyLayer (reg : Registry) (layer : Layer) : Registry :=
  layer.foldl (fun r kp => setOrMerge r kp.1 kp.2) reg

/-- The built-in default obfuscation password of `DEFAULT_CONFIG`. -/
def defaultPw : String :=
  "fiQ7YCt7BTQ47aDotBFxpzSfibBjiI5BX21MeMUNugPRC9RQSwjDyWd4abiq0SNwhZbVmASGC6OxrJuS"

/-- The built-in default salt of `DEFAULT_CONFIG`. -/
def defaultSalt : String :=
  "zDvGZz2epkEeSbxAeMFxobCfcjG2GAHIcZZ8WX3SfEYX4g2idD3VTQsrCQIC7QsyYE4B36tRKEm1hUib"

/-- `Obfuscator.DEFAULT_CONFIG.algSettings.DEFAULT` of the source.  The
`doNotEncodeAfter: undefined` own field of the literal is skipped by every
`extend` copy, hence `none`. -/
def defaultSettings : AlgSettings :=
  { name := some "DEFAULT",
    base := none,
    notes := some "This is a default obfuscation password - it should only be used for insensitive data as anybody with source access can decode this - See README.md for recommended production usage",
    password := some defaultPw,
    salt := some defaultSalt,
    iterations := some 100000,
    hash := some "sha256",
    alg := some "aes-256-cbc",
    stringEncoding := some "utf8",
    binEncoding := some "base64",
    doNotEncodeAfter := none }

/-- The default registry (`DEFAULT_CONFIG.algSettings`). -/
def defaultConfig : Registry := [("DEFAULT", defaultSettings)]

/-- Modelled from the spec: the `BaseConfigurable` base class (package
`node-config-types`, not part of this repository) deep-merges the default
config with each override layer in order, later layers winning
field by field; the merge operator is the same `extend` used elsewhere. -/
def buildConfigC (layers : List Layer) : Registry :=
  layers.foldl applyLayer defaultConfig

/-- All errors thrown by the library (plus `outOfFuel`, the sentinel of the
fuelled resolution loop, proved unreachable below, and `typeError` for JS
`TypeError`s raised inside external collaborators on `undefined` inputs). -/
inductive ObfError where
  | alreadyConfigured
  | nameMismatch (alg : String)
  | unknownAlg (alg : String)
  | circular
  | outOfFuel
  | passwordTooShort (name : Option String)
  | algExpired (alg : String)
  | malformed
  | typeError
  | integrity
deriving DecidableEq, Repr

instance {ε α : Type} [DecidableEq ε] [DecidableEq α] : DecidableEq (Except ε α) :=
  fun a b =>
    match a, b with
    | .error e, .error e' =>
      if h : e = e' then .isTrue (by rw [h]) else .isFalse (by intro hc; cases hc; exact h rfl)
    | .error _, .ok _ => .isFalse (by intro hc; cases hc)
    | .ok _, .error _ => .isFalse (by intro hc; cases hc)
    | .ok v, .ok v' =>
      if h : v = v' then .isTrue (by rw [h]) else .isFalse (by intro hc; cases hc; exact h rfl)

/-- JS truthiness of an optional string field: `undefined` and `""` are
falsy.  Returns the string when truthy. -/
def tbase : Option String → Option String
  | none => none
  | some s => if s = "" then none else some s

/-- The `extend(true, {}, baseCfg, { password: "" }, algCfg, { base: "" })`
merge of the newer `configure` (part_000 line 81): fields of the entry win
when defined, otherwise they come from the flattened base; the password
never comes from the base — it is reset to `""` first; `base` is finally
overwritten with `""`. -/
def resolveMerge (baseCfg : Option AlgSettings) (algCfg : AlgSettings) : AlgSettings :=
  let b := baseCfg.getD emptySettings
  { name := algCfg.name.orElse (fun _ => b.name),
    base := some "",
    notes := algCfg.notes.orElse (fun _ => b.notes),
    password := algCfg.password.orElse (fun _ => some ""),
    salt := algCfg.salt.orElse (fun _ => b.salt),
    iterations := algCfg.iterations.orElse (fun _ => b.iterations),
    hash := algCfg.hash.orElse (fun _ => b.hash),
    alg := algCfg.alg.orElse (fun _ => b.alg),
    stringEncoding := algCfg.stringEncoding.orElse (fun _ => b.stringEncoding),
    binEncoding := algCfg.binEncoding.orElse (fun _ => b.binEncoding),
    doNotEncodeAfter := algCfg.doNotEncodeAfter.orElse (fun _ => b.doNotEncodeAfter) }

/-- One loop iteration of the newer `configure` (part_000 lines 59-82) over
one entry of `config.algSettings`.  State: (resolved map, numProcessed,
numWithBase). -/
def passStep (config : Registry) : Registry × Nat × Nat → String × AlgSettings →
    Except ObfError (Registry × Nat × Nat)
  | (resolved, np, nwb), (alg, algCfg) =>
  match rlookup resolved alg with
  | some _ => .ok (resolved, np, nwb)
  | none =>
    match tbase algCfg.base with
    | some b =>
      match rlookup resolved b with
      | none =>
        match rlookup config b with
        | none => .error (.unknownAlg b)
        | some _ => .ok (resolved, np, nwb + 1)
      | some baseCfg =>
        if algCfg.name = some alg then
          .ok (resolved ++ [(alg, resolveMerge (some baseCfg) algCfg)], np + 1, nwb)
        else .error (.nameMismatch alg)
    | none =>
      if algCfg.name = some alg then
        .ok (resolved ++ [(alg, resolveMerge none algCfg)], np + 1, nwb)
      else .error (.nameMismatch alg)

/-- Fold `passStep` over a list of entries, short-circuiting on a thrown error. -/
def passFold (config : Registry) : List (String × AlgSettings) → Registry × Nat × Nat →
    Except ObfError (Registry × Nat × Nat)
  | [], st => .ok st
  | e :: rest, st =>
    match passStep config st e with
    | .error err => .error err
    | .ok st' => passFold config rest st'

/-- One full `for` pass of the newer `configure` over all config entries. -/
def runPass (config : Registry) (resolved : Registry) :
    Except ObfError (Registry × Nat × Nat) :=
  passFold config config (resolved, 0, 0)

/-- The `do … while (numWithBase)` loop of the newer `configure`, with an
explicit fuel bound on the number of passes. -/
def resolveLoop (config : Registry) : Nat → Registry → Except ObfError Registry
  | 0, _ => .error .outOfFuel
  | fuel + 1, resolved =>
    match runPass config resolved with
    | .error e => .error e
    | .ok (r, np, nwb) =>
      if nwb = 0 then .ok r
      else if np = 0 then .error .circular
      else resolveLoop config fuel r

/-- `Obfuscator.configure` of part_000 (lines 53-86): resolve the merged
config registry to the flattened `algSettings` map. -/
def configureC (config : Registry) : Except ObfError Registry :=
  resolveLoop config (config.length + 1) []

/-- A part_000 `Obfuscator` instance built from constructor override layers:
merge the layers over the default config, then resolve. -/
def mkObfuscatorC (layers : List Layer) : Except ObfError Registry :=
  configureC (buildConfigC layers)

/-- The sanity-check pass of the older `configure` (index.ts lines 62-67):
every entry's `name` must equal its registry key, else `NameMismatch`. -/
def checkNames : Registry → Except ObfError Unit
  | [] => .ok ()
  | (k, s) :: rest => if s.name = some k then checkNames rest else .error (.nameMismatch k)

/-- The `extend(true, {}, baseCfg, algCfg)` merge of the older `configure`
(index.ts line 84), applied after `delete algCfg.base`: entry fields win
when defined — including the password — and `base` comes from the
(already flat) base. -/
def resolveMergeA (baseCfg : AlgSettings) (algCfg : AlgSettings) : AlgSettings :=
  { name := algCfg.name.orElse (fun _ => baseCfg.name),
    base := baseCfg.base,
    notes := algCfg.notes.orElse (fun _ => baseCfg.notes),
    password := algCfg.password.orElse (fun _ => baseCfg.password),
    salt := algCfg.salt.orElse (fun _ => baseCfg.salt),
    iterations := algCfg.iterations.orElse (fun _ => baseCfg.iterations),
    hash := algCfg.hash.orElse (fun _ => baseCfg.hash),
    alg := algCfg.alg.orElse (fun _ => baseCfg.alg),
    stringEncoding := algCfg.stringEncoding.orElse (fun _ => baseCfg.stringEncoding),
    binEncoding := algCfg.binEncoding.orElse (fun _ => baseCfg.binEncoding),
    doNotEncodeAfter := algCfg.doNotEncodeAfter.orElse (fun _ => baseCfg.doNotEncodeAfter) }

/-- One loop iteration of the older `configure` (index.ts lines 74-88) over
one key; the registry is mutated in place, so the state carries it. -/
def passStepA : Registry × Nat × Nat → String → Except ObfError (Registry × Nat × Nat)
  | (reg, np, nwb), alg =>
  match rlookup reg alg with
  | none => .ok (reg, np, nwb)
  | some algCfg =>
    match tbase algCfg.base with
    | none => .ok (reg, np, nwb)
    | some b =>
      match rlookup reg b with
      | none => .error (.unknownAlg b)
      | some baseCfg =>
        match tbase baseCfg.base with
        | none =>
          .ok (rupdate reg alg (resolveMergeA baseCfg { algCfg with base := none }), np + 1, nwb)
        | some _ => .ok (reg, np, nwb + 1)

/-- Fold `passStepA` over a list of keys. -/
def passFoldA : List String → Registry × Nat × Nat → Except ObfError (Registry × Nat × Nat)
  | [], st => .ok st
  | k :: rest, st =>
    match passStepA st k with
    | .error err => .error err
    | .ok st' => passFoldA rest st'

/-- One full `for` pass of the older `configure` over the key snapshot. -/
def runPassA (reg : Registry) : Except ObfError (Registry × Nat × Nat) :=
  passFoldA (reg.map Prod.fst) (reg, 0, 0)

/-- The `do … while (numWithBase)` loop of the older `configure`. -/
def resolveLoopA : Nat → Registry → Except ObfError Registry
  | 0, _ => .error .outOfFuel
  | fuel + 1, reg =>
    match runPassA reg with
    | .error e => .error e
    | .ok (r, np, nwb) =>
      if nwb = 0 then .ok r
      else if np = 0 then .error .circular
      else resolveLoopA fuel r

/-- The older `configure(config?)` (index.ts lines 57-98) minus the one-shot
lock: `extend(true, {}, DEFAULT_CONFIG, config)`, then the name sanity pass,
then iterative base resolution. -/
def configureACore (cfg : Option Layer) : Except ObfError Registry :=
  let merged := match cfg with
    | none => defaultConfig
    | some l => applyLayer defaultConfig l
  match checkNames merged with
  | .error e => .error e
  | .ok _ => resolveLoopA (merged.length + 1) merged

/-- Observable state of an older-variant `Obfuscator` instance: resolved
config, the `_configLocked` flag and the key cache. -/
structure ObfA where
  config : Registry
  locked : Bool
  cache : List (Option String × List Nat)
deriving DecidableEq, Repr

/-- A `configure` call on an existing older-variant instance: when the lock
is set it throws `AlreadyConfigured` before touching anything (an error
leaves the instance state unchanged); on success the new registry is
swapped in, the lock set and the key cache cleared. -/
def configureStepA (st : ObfA) (cfg : Option Layer) : Except ObfError ObfA :=
  if st.locked then .error .alreadyConfigured
  else
    match configureACore cfg with
    | .error e => .error e
    | .ok reg => .ok { config := reg, locked := true, cache := [] }

/-- `new Obfuscator(config?)` of the older variant: the constructor runs
`configure(config)` and then sets `_configLocked = !!config`, so passing a
config consumes the one allowed configuration while omitting it leaves the
instance unlocked once. -/
def mkObfuscatorA (cfg : Option Layer) : Except ObfError ObfA :=
  match configureACore cfg with
  | .error e => .error e
  | .ok reg => .ok { config := reg, locked := cfg.isSome, cache := [] }

/-- The external cryptographic/codec collaborators consumed by the library
(Node's `crypto` module, `Buffer` codecs, `Date.parse`), abstracted:
`keyLength` is `getCipherInfo(alg)?.keyLength`; `pbkdf2` is `pbkdf2Sync`;
`encrypt`/`decrypt` are the symmetric cipher keyed by (cipher id, key, iv),
`decrypt` returning `none` on a cipher-level integrity/padding failure;
`toText`/`fromText` are `buffer.toString(enc)` / `Buffer.from(text, enc)`
(the encoding argument `none` is JS `undefined`, which Node defaults to
utf8); `dateParse` is `Date.parse`, `none` meaning `NaN`. -/
structure CryptoProvider where
  keyLength : String → Option Nat
  pbkdf2 : String → String → Nat → Nat → String → List Nat
  encrypt : String → List Nat → List Nat → List Nat → List Nat
  decrypt : String → List Nat → List Nat → List Nat → Option (List Nat)
  toText : Option String → List Nat → List Char
  fromText : Option String → List Char → List Nat
  dateParse : String → Option Int

/-- The key cache, keyed by `settings.name`. -/
abbrev Cache := List (Option String × List Nat)

/-- Cache lookup by optional name. -/
def clookup : Cache → Option String → Option (List Nat)
  | [], _ => none
  | (k, v) :: rest, key => if k = key then some v else clookup rest key

/-- `Obfuscator._isAfterCheckDate(limit, now)`: no limit is never expired;
otherwise expired iff `Date.parse(limit) <= now`, where a `NaN` parse
(`none`) makes the comparison false. -/
def isAfterCheckDate (parse : String → Option Int) (limit : Option String) (now : Int) : Bool :=
  match limit with
  | none => false
  | some l =>
    match parse l with
    | none => false
    | some dt => decide (dt ≤ now)

/-- `Obfuscator.generateKey(settings)`: reject passwords shorter than 8
characters, then derive `pbkdf2(password, salt, iterations, keyLength(alg),
hash)`.  An `undefined` password, salt, iteration count, hash or cipher id —
or an unknown cipher — makes the underlying Node call throw a `TypeError`. -/
def generateKey (P : CryptoProvider) (s : AlgSettings) : Except ObfError (List Nat) :=
  match s.password with
  | none => .error .typeError
  | some pw =>
    if pw.length < 8 then .error (.passwordTooShort s.name)
    else
      match s.alg, s.salt, s.iterations, s.hash with
      | some a, some salt, some iter, some hsh =>
        match P.keyLength a with
        | none => .error .typeError
        | some klen => .ok (P.pbkdf2 pw salt iter klen hsh)
      | _, _, _, _ => .error .typeError

/-- `Obfuscator.getKey(settings)`: `this.cache[settings.name] ??=
this.generateKey(settings)` — return the cached key unchanged when present,
otherwise derive, store and return it. -/
def getKey (P : CryptoProvider) (cache : Cache) (s : AlgSettings) :
    Except ObfError (List Nat × Cache) :=
  match clookup cache s.name with
  | some k => .ok (k, cache)
  | none =>
    match generateKey P s with
    | .error e => .error e
    | .ok k => .ok (k, cache ++ [(s.name, k)])

/-- `Obfuscator._encode(alg, val)` with the random IV injected: look the
algorithm up (`UnknownAlg` when absent), refuse expired algorithms, obtain
the key through the cache, encrypt, and pack
`alg ++ ":" ++ toText(iv) ++ ":" ++ toText(ciphertext)` using the
algorithm's binary encoding. -/
def encodeRaw (P : CryptoProvider) (reg : Registry) (cache : Cache) (now : Int)
    (iv : List Nat) (alg : String) (val : List Nat) :
    Except ObfError (List Char × Cache) :=
  match rlookup reg alg with
  | none => .error (.unknownAlg alg)
  | some s =>
    if isAfterCheckDate P.dateParse s.doNotEncodeAfter now then .error (.algExpired alg)
    else
      match getKey P cache s with
      | .error e => .error e
      | .ok (key, cache') =>
        match s.alg with
        | none => .error .typeError
        | some a =>
          .ok (alg.toList ++ ':' ::
                (P.toText s.binEncoding iv ++ ':' ::
                  P.toText s.binEncoding (P.encrypt a key iv val)),
              cache')

/-- JS `string.split(sep)` on a one-character separator, over `List Char`. -/
def splitChar (sep : Char) : List Char → List (List Char)
  | [] => [[]]
  | c :: rest =>
    match splitChar sep rest with
    | [] => [[]]
    | h :: t => if c = sep then [] :: h :: t else (c :: h) :: t

/-- `Obfuscator._decode(val)`: split on `":"` (`Malformed` unless exactly 3
parts), look up the algorithm named by part 0, obtain the key through the
cache, decode IV and ciphertext with the binary encoding and decrypt;
cipher-level integrity failures propagate. -/
def decodeRaw (P : CryptoProvider) (reg : Registry) (cache : Cache) (tok : List Char) :
    Except ObfError (AlgSettings × List Nat × Cache) :=
  match splitChar ':' tok with
  | [p0, p1, p2] =>
    match rlookup reg (String.mk p0) with
    | none => .error (.unknownAlg (String.mk p0))
    | some s =>
      match getKey P cache s with
      | .error e => .error e
      | .ok (key, cache') =>
        match s.alg with
        | none => .error .typeError
        | some a =>
          match P.decrypt a key (P.fromText s.binEncoding p1) (P.fromText s.binEncoding p2) with
          | none => .error .integrity
          | some data => .ok (s, data, cache')
  | _ => .error .malformed

/-- `Obfuscator.encodeBuffer(val, alg)` (explicit algorithm). -/
def encodeBufferFn (P : CryptoProvider) (reg : Registry) (cache : Cache) (now : Int)
    (iv : List Nat) (alg : String) (val : List Nat) :
    Except ObfError (List Char × Cache) :=
  encodeRaw P reg cache now iv alg val

/-- `Obfuscator.encodeString(val, alg)`: the source re-encodes the plaintext
string as `Buffer.from(val).toString(stringEncoding)` (utf8-decode, then
re-render in the algorithm's string encoding) and the cipher then consumes
that intermediate string as utf8 bytes. -/
def encodeStringFn (P : CryptoProvider) (reg : Registry) (cache : Cache) (now : Int)
    (iv : List Nat) (alg : String) (val : String) :
    Except ObfError (List Char × Cache) :=
  let se := match rlookup reg alg with
    | some s => s.stringEncoding
    | none => none
  encodeRaw P reg cache now iv alg
    (P.fromText (some "utf8") (P.toText se (P.fromText (some "utf8") val.toList)))

/-- `Obfuscator.decodeBuffer(val)`. -/
def decodeBufferFn (P : CryptoProvider) (reg : Registry) (cache : Cache) (tok : List Char) :
    Except ObfError (List Nat × Cache) :=
  match decodeRaw P reg cache tok with
  | .error e => .error e
  | .ok (_, data, cache') => .ok (data, cache')

/-- `Obfuscator.decodeString(val)`: decode, then render the plaintext bytes
with the settings' string encoding. -/
def decodeStringFn (P : CryptoProvider) (reg : Registry) (cache : Cache) (tok : List Char) :
    Except ObfError (String × Cache) :=
  match decodeRaw P reg cache tok with
  | .error e => .error e
  | .ok (s, data, cache') => .ok (String.mk (P.toText s.stringEncoding data), cache')

/-- Unary binary-to-text rendering used by the concrete witness provider:
each byte `n` becomes `'.'` followed by `n` copies of `'a'`.  The rendering
never contains `':'` and is exactly invertible for arbitrary byte lists. -/
def unaryText : List Nat → List Char
  | [] => []
  | n :: rest => '.' :: (List.replicate n 'a' ++ unaryText rest)

/-- Inverse of `unaryText`: running counter of the current unary run. -/
def unaryParseAux : List Char → Option Nat → List Nat
  | [], none => []
  | [], some n => [n]
  | c :: rest, acc =>
    if c = '.' then
      match acc with
      | none => unaryParseAux rest (some 0)
      | some n => n :: unaryParseAux rest (some 0)
    else
      match acc with
      | none => unaryParseAux rest none
      | some n => unaryParseAux rest (some (n + 1))

/-- Text-to-binary decoding of the concrete witness provider. -/
def unaryParse (l : List Char) : List Nat := unaryParseAux l none

/-- A small concrete collaborator used to instantiate witness theorems: a
prefix-tag cipher (the ciphertext embeds key and IV, so decryption checks
them), a key derivation determined by password, salt and iteration count,
a character-code utf8 codec and the unary binary codec for every other
encoding identifier. -/
def toyProvider : CryptoProvider :=
  { keyLength := fun _ => some 32,
    pbkdf2 := fun pw salt iter _ _ => [pw.length, salt.length, iter % 97],
    encrypt := fun _ key iv data => key ++ iv ++ data,
    decrypt := fun _ key iv ct =>
      if ct.take key.length = key then
        if (ct.drop key.length).take iv.length = iv then
          some ((ct.drop key.length).drop iv.length)
        else none
      else none,
    toText := fun enc b => if enc = some "utf8" then b.map Char.ofNat else unaryText b,
    fromText := fun enc l => if enc = some "utf8" then l.map Char.toNat else unaryParse l,
    dateParse := fun _ => none }

/-- Override entry `foo: { name: "foo", base: "DEFAULT" }` of the test suite. -/
def fooPatch : AlgPatch :=
  { emptyPatch with name := some (some "foo"), base := some (some "DEFAULT") }

/-- Override entry `bar: { name: "bar", base: "foo", password: "UnitTests" }`. -/
def barPatch : AlgPatch :=
  { emptyPatch with
    name := some (some "bar")
    base := some (some "foo")
    password := some (some "UnitTests") }

/-- The override layer of the base-configuration test scenario. -/
def testLayer : Layer := [("foo", fooPatch), ("bar", barPatch)]

/-- The resolved registry of the part_000 program configured with
`testLayer` (empty when resolution fails, which it does not). -/
def testRegistry : Registry :=
  match mkObfuscatorC [testLayer] with
  | .ok r => r
  | .error _ => []

/-- Override entry `foo: { name: "foo", base: "DEFAULT", password: undefined }`:
the `password` key is an own field whose value is `undefined`. -/
def c1Patch : AlgPatch :=
  { emptyPatch with
    name := some (some "foo")
    base := some (some "DEFAULT")
    password := some none }

/-- The layer exercising an own `password: undefined` field. -/
def c1Layer : Layer := [("foo", c1Patch)]

/-- Override entry `foo: { name: "foo", base: "" }`: a falsy but present
`base` field. -/
def c4Patch : AlgPatch :=
  { emptyPatch with name := some (some "foo"), base := some (some "") }

/-- The layer exercising a present-but-empty `base` field. -/
def c4Layer : Layer := [("foo", c4Patch)]

/-- Override entry `foo: { name: "bar" }`: stored key and `name` disagree. -/
def mismatchPatch : AlgPatch := { emptyPatch with name := some (some "bar") }

/-- The layer exercising the name/key mismatch. -/
def mismatchLayer : Layer := [("foo", mismatchPatch)]

/-- The circular layer of the test suite: `foo` based on `bar` based on `foo`. -/
def cycLayer : Layer :=
  [("foo", { emptyPatch with name := some (some "foo"), base := some (some "bar") }),
   ("bar", { emptyPatch with name := some (some "bar"), base := some (some "foo") })]

/-- The layer whose entry names an absent base algorithm. -/
def unknownBaseLayer : Layer :=
  [("foo", { emptyPatch with name := some (some "foo"), base := some (some "bar") })]

/-- Override entry `foo: { name: "foo", base: "DEFAULT", password: "123" }`. -/
def shortPwPatch : AlgPatch :=
  { emptyPatch with
    name := some (some "foo")
    base := some (some "DEFAULT")
    password := some (some "123") }

/-- Override layer with a 3-character password based on the default algorithm. -/
def shortPwLayer : Layer := [("foo", shortPwPatch)]

/-- Concrete `Date.parse` values (UTC epoch milliseconds) for the calendar
dates of the expiry scenario; date-only ISO strings parse at their UTC
start of day, anything else is `NaN`. -/
def testDateParse : String → Option Int := fun s =>
  if s = "2019-12-31" then some 1577750400000
  else if s = "2020-01-01" then some 1577836800000
  else if s = "2020-01-02" then some 1577923200000
  else none

/-- The keys of a registry/layer in order. -/
def keysOf {α : Type} (l : List (String × α)) : List String := l.map Prod.fst

/-- Every entry's `name` equals the key it is stored under. -/
def NamesOk (reg : Registry) : Prop := ∀ e ∈ reg, e.2.name = some e.1

/-- Shape invariant of entries produced by the newer resolver: each resolved
entry comes from a config entry, its password is the config entry's own
password when defined and `""` otherwise (never the base's), its `name` is
its key and its `base` is the overwritten `""`. -/
def PwInv (config : Registry) (r : Registry) : Prop :=
  ∀ e ∈ r, ∃ c, (e.1, c) ∈ config ∧
    e.2.password = c.password.orElse (fun _ => some "") ∧
    e.2.name = some e.1 ∧ e.2.base = some ""

/-- Swap the algorithm-name prefix of a token, as the test suite's
`enc.replace(/^bar:/, "foo:")` does. -/
def swapName (newName : String) (tok : List Char) : List Char :=
  newName.toList ++ tok.dropWhile (fun c => c != ':')

/-- A resolved settings bundle used by interchangeability witnesses. -/
def twinA : AlgSettings :=
  { name := some "A", base := some "", notes := none, password := some "pw123456",
    salt := some "salt", iterations := some 3, hash := some "h", alg := some "c",
    stringEncoding := some "utf8", binEncoding := some "bin", doNotEncodeAfter := none }

/-- The same bundle stored under a second name. -/
def twinB : AlgSettings := { twinA with name := some "B" }

/-- Two algorithm names whose resolved cipher-relevant fields coincide. -/
def twinRegistry : Registry := [("A", twinA), ("B", twinB)]

/-- The resolved registry of the short-password scenario. -/
def shortRegistry : Registry :=
  match mkObfuscatorC [shortPwLayer] with
  | .ok r => r
  | .error _ => []

/-- Override layer whose entry carries a `doNotEncodeAfter` value that does
not parse as a date. -/
def badDateLayer : Layer :=
  [("foo",
    { emptyPatch with
      name := some (some "foo")
      base := some (some "DEFAULT")
      password := some (some "GoodPassword")
      doNotEncodeAfter := some (some "not-a-date") })]

/-- The resolved registry of the malformed-expiry-date scenario. -/
def badDateRegistry : Registry :=
  match mkObfuscatorC [badDateLayer] with
  | .ok r => r
  | .error _ => []

/-- The older-variant instance built by `new Obfuscator()` (no config). -/
def obfA0 : ObfA :=
  match mkObfuscatorA none with
  | .ok st => st
  | .error _ => { config := [], locked := true, cache := [] }

/-- The instance after the one allowed `configure` call on `obfA0`. -/
def obfA1 : ObfA :=
  match configureStepA obfA0 (some testLayer) with
  | .ok st => st
  | .error _ => { config := [], locked := true, cache := [] }

/-- The resolved `DEFAULT` entry of `testRegistry`. -/
def defaultResolved : AlgSettings :=
  match rlookup testRegistry "DEFAULT" with
  | some s => s
  | none => emptySettings

/-- The resolved `foo` entry of `testRegistry`. -/
def fooResolved : AlgSettings :=
  match rlookup testRegistry "foo" with
  | some s => s
  | none => emptySettings

/-- The resolved `bar` entry of `testRegistry`. -/
def barResolved : AlgSettings :=
  match rlookup testRegistry "bar" with
  | some s => s
  | none => emptySettings

/-- The registry resolved by the older variant from the test layer. -/
def regA : Registry :=
  match configureACore (some testLayer) with
  | .ok r => r
  | .error _ => []

/-- The resolved `foo` entry of `regA`. -/
def fooResolvedA : AlgSettings :=
  match rlookup regA "foo" with
  | some s => s
  | none => emptySettings

/-- The resolved `foo` entry of `badDateRegistry`. -/
def badDateResolved : AlgSettings :=
  match rlookup badDateRegistry "foo" with
  | some s => s
  | none => emptySettings

/-- The merged config entry for `foo` in the short-password scenario. -/
def cfgFooShortC : AlgSettings :=
  match rlookup (buildConfigC [shortPwLayer]) "foo" with
  | some c => c
  | none => emptySettings

theorem keysOf_cons {α : Type} (e : String × α) (l : List (String × α)) :
    keysOf (e :: l) = e.1 :: keysOf l := rfl

theorem rlookup_append {α : Type} (l l' : List (String × α)) (k : String) :
    rlookup (l ++ l') k =
      match rlookup l k with
      | some v => some v
      | none => rlookup l' k := by
  induction l with
  | nil => simp [rlookup]
  | cons e rest ih =>
    obtain ⟨k₁, v₁⟩ := e
    by_cases h : k₁ = k <;> simp [rlookup, h, ih]

theorem rlookup_eq_none_iff {α : Type} (l : List (String × α)) (k : String) :
    rlookup l k = none ↔ k ∉ keysOf l := by
  induction l with
  | nil => simp [rlookup, keysOf]
  | cons e rest ih =>
    obtain ⟨k₁, v₁⟩ := e
    by_cases h : k₁ = k
    · subst h
      simp [rlookup, keysOf_cons]
    · simp only [rlookup, keysOf_cons, List.mem_cons, if_neg h, ih]
      constructor
      · intro hn hmem
        rcases hmem with hmem | hmem
        · exact h hmem.symm
        · exact hn hmem
      · intro hn hmem
        exact hn (Or.inr hmem)

theorem rlookup_mem {α : Type} (l : List (String × α)) (k : String) (v : α)
    (h : rlookup l k = some v) : (k, v) ∈ l := by
  induction l with
  | nil => simp [rlookup] at h
  | cons e rest ih =>
    obtain ⟨k₁, v₁⟩ := e
    by_cases hk : k₁ = k
    · subst hk
      simp [rlookup] at h
      simp [h]
    · simp [rlookup, hk] at h
      exact List.mem_cons_of_mem _ (ih h)

theorem key_mem_of_mem {α : Type} (l : List (String × α)) (k : String) (v : α)
    (h : (k, v) ∈ l) : k ∈ keysOf l :=
  List.mem_map_of_mem Prod.fst h

theorem rlookup_of_mem_nodup {α : Type} (l : List (String × α)) (k : String) (v : α)
    (hmem : (k, v) ∈ l) (hnd : (keysOf l).Nodup) : rlookup l k = some v := by
  induction l with
  | nil => simp at hmem
  | cons e rest ih =>
    obtain ⟨k₁, v₁⟩ := e
    have hnd2 := List.nodup_cons.mp (show (k₁ :: keysOf rest).Nodup from hnd)
    rcases List.mem_cons.mp hmem with h | h
    · injection h with h1 h2
      subst h1; subst h2
      simp [rlookup]
    · by_cases hk : k₁ = k
      · subst hk
        exact absurd (key_mem_of_mem rest k₁ v h) hnd2.1
      · simp only [rlookup, if_neg hk]
        exact ih h hnd2.2

theorem keysOf_append {α : Type} (l l' : List (String × α)) :
    keysOf (l ++ l') = keysOf l ++ keysOf l' := by
  simp [keysOf]

theorem splitChar_no_sep (sep : Char) (l : List Char) (h : sep ∉ l) :
    splitChar sep l = [l] := by
  induction l with
  | nil => rfl
  | cons c rest ih =>
    have h1 : ¬(c = sep) := fun hc => h (hc ▸ List.mem_cons_self c rest)
    have h2 : sep ∉ rest := fun hm => h (List.mem_cons_of_mem _ hm)
    simp [splitChar, ih h2, h1]

theorem splitChar_append (sep : Char) (a r : List Char) (h : sep ∉ a) :
    splitChar sep (a ++ sep :: r) = a :: splitChar sep r := by
  induction a with
  | nil =>
    simp only [List.nil_append, splitChar]
    cases hsp : splitChar sep r with
    | nil => simp
    | cons x t => simp
  | cons c a' ih =>
    have h1 : ¬(c = sep) := fun hc => h (hc ▸ List.mem_cons_self c a')
    have h2 : sep ∉ a' := fun hm => h (List.mem_cons_of_mem _ hm)
    show (match splitChar sep (a' ++ sep :: r) with
      | [] => [[]]
      | h :: t => if c = sep then [] :: h :: t else (c :: h) :: t) =
      (c :: a') :: splitChar sep r
    rw [ih h2]
    simp [h1]

theorem splitChar_three (sep : Char) (a b c : List Char)
    (ha : sep ∉ a) (hb : sep ∉ b) (hc : sep ∉ c) :
    splitChar sep (a ++ sep :: (b ++ sep :: c)) = [a, b, c] := by
  rw [splitChar_append _ _ _ ha, splitChar_append _ _ _ hb, splitChar_no_sep _ _ hc]

theorem dropWhile_to_sep (a r : List Char) (h : ':' ∉ a) :
    (a ++ ':' :: r).dropWhile (fun c => c != ':') = ':' :: r := by
  induction a with
  | nil => simp [List.dropWhile]
  | cons c a' ih =>
    have h1 : c ≠ ':' := fun hc => h (hc ▸ List.mem_cons_self c a')
    have h2 : ':' ∉ a' := fun hm => h (List.mem_cons_of_mem _ hm)
    have hb : (c != ':') = true := by simp [h1]
    simp [List.dropWhile, hb, ih h2]

theorem swapName_eq (n : String) (a r : List Char) (h : ':' ∉ a) :
    swapName n (a ++ ':' :: r) = n.toList ++ ':' :: r := by
  simp [swapName, dropWhile_to_sep _ _ h]

theorem mem_unaryText (b : List Nat) (c : Char) (h : c ∈ unaryText b) :
    c = '.' ∨ c = 'a' := by
  induction b with
  | nil => simp [unaryText] at h
  | cons n rest ih =>
    simp only [unaryText, List.mem_cons, List.mem_append] at h
    rcases h with h | h | h
    · exact Or.inl h
    · exact Or.inr (List.eq_of_mem_replicate h)
    · exact ih h

theorem colon_not_mem_unaryText (b : List Nat) : ':' ∉ unaryText b := by
  intro h
  rcases mem_unaryText b _ h with h | h <;> exact absurd h (by decide)

theorem unaryParseAux_replicate (m : Nat) (rest : List Char) (n : Nat) :
    unaryParseAux (List.replicate m 'a' ++ rest) (some n) =
      unaryParseAux rest (some (n + m)) := by
  induction m generalizing n with
  | zero => simp
  | succ m ih =>
    rw [List.replicate_succ, List.cons_append]
    show (if ('a' : Char) = '.' then
        (n : Nat) :: unaryParseAux (List.replicate m 'a' ++ rest) (some 0)
      else unaryParseAux (List.replicate m 'a' ++ rest) (some (n + 1))) =
      unaryParseAux rest (some (n + (m + 1)))
    rw [if_neg (by decide : ¬ ('a' : Char) = '.')]
    rw [ih (n + 1)]
    have harith : n + 1 + m = n + (m + 1) := by omega
    rw [harith]

theorem unaryParseAux_unaryText (b : List Nat) (acc : Option Nat) :
    unaryParseAux (unaryText b) acc =
      (match acc with | none => [] | some n => [n]) ++ b := by
  induction b generalizing acc with
  | nil => cases acc <;> simp [unaryText, unaryParseAux]
  | cons m rest ih =>
    cases acc <;>
      simp [unaryText, unaryParseAux, unaryParseAux_replicate, ih]

theorem unaryParse_unaryText (b : List Nat) : unaryParse (unaryText b) = b := by
  simp [unaryParse, unaryParseAux_unaryText]

theorem toy_fromText_toText (e : Option String) (he : e ≠ some "utf8") (b : List Nat) :
    toyProvider.fromText e (toyProvider.toText e b) = b := by
  simp [toyProvider, he, unaryParse_unaryText]

theorem toy_toText_no_colon (e : Option String) (he : e ≠ some "utf8") (b : List Nat) :
    ':' ∉ toyProvider.toText e b := by
  simp only [toyProvider, he, if_false]
  exact colon_not_mem_unaryText b

theorem toy_se_utf8 (l : List Char) :
    toyProvider.toText (some "utf8") (toyProvider.fromText (some "utf8") l) = l := by
  simp [toyProvider, List.map_map, Function.comp_def, Char.ofNat_toNat, List.map_id']

theorem toy_decrypt_encrypt (a : String) (k iv d : List Nat) :
    toyProvider.decrypt a k iv (toyProvider.encrypt a k iv d) = some d := by
  show (if (k ++ iv ++ d).take k.length = k then
          if ((k ++ iv ++ d).drop k.length).take iv.length = iv then
            some (((k ++ iv ++ d).drop k.length).drop iv.length)
          else none
        else none) = some d
  simp [List.append_assoc, List.take_left, List.drop_left]

theorem toy_decrypt_wrong_key (a : String) (k k' iv d : List Nat) (h : k ≠ k') :
    toyProvider.decrypt a k' iv (toyProvider.encrypt a k iv d) ≠ some d := by
  intro hc
  show False
  have hc' : (if (k ++ iv ++ d).take k'.length = k' then
          if ((k ++ iv ++ d).drop k'.length).take iv.length = iv then
            some (((k ++ iv ++ d).drop k'.length).drop iv.length)
          else none
        else none) = some d := hc
  by_cases h1 : ((k ++ iv ++ d).take k'.length = k')
  · by_cases h2 : (((k ++ iv ++ d).drop k'.length).take iv.length = iv)
    · rw [if_pos h1, if_pos h2] at hc'
      injection hc' with hd
      have e1 : k'.length ≤ (k ++ iv ++ d).length := by
        have h3 := congrArg List.length h1
        rw [List.length_take] at h3
        calc k'.length = min k'.length (k ++ iv ++ d).length := h3.symm
          _ ≤ (k ++ iv ++ d).length := Nat.min_le_right _ _
      have e2 : iv.length ≤ (k ++ iv ++ d).length - k'.length := by
        have h3 := congrArg List.length h2
        rw [List.length_take, List.length_drop] at h3
        calc iv.length = min iv.length ((k ++ iv ++ d).length - k'.length) := h3.symm
          _ ≤ (k ++ iv ++ d).length - k'.length := Nat.min_le_right _ _
      have e3 : k.length + (iv.length + d.length) - (k'.length + iv.length) = d.length := by
        have h3 := congrArg List.length hd
        simpa [List.length_drop] using h3
      rw [List.length_append, List.length_append] at e1 e2
      have hkk : k'.length = k.length := by omega
      rw [hkk, List.append_assoc, List.take_left] at h1
      exact h h1
    · rw [if_pos h1, if_neg h2] at hc'
      exact Option.noConfusion hc'
  · rw [if_neg h1] at hc'
    exact Option.noConfusion hc'

theorem nodup_concat {α : Type} (l : List α) (x : α) (h : l.Nodup) (hx : x ∉ l) :
    (l ++ [x]).Nodup := by
  rw [List.nodup_append]
  refine ⟨h, List.nodup_singleton x, ?_⟩
  intro a ha hax
  rw [List.mem_singleton] at hax
  subst hax
  exact hx ha

theorem passStep_ok_cases (config : Registry) (st : Registry × Nat × Nat)
    (e : String × AlgSettings) (st' : Registry × Nat × Nat)
    (h : passStep config st e = .ok st') :
    (st'.1 = st.1 ∧ st'.2.1 = st.2.1) ∨
    (rlookup st.1 e.1 = none ∧ e.2.name = some e.1 ∧
      (∃ bc, st'.1 = st.1 ++ [(e.1, resolveMerge bc e.2)]) ∧
      st'.2.1 = st.2.1 + 1) := by
  rcases st with ⟨resolved, np, nwb⟩
  rcases e with ⟨alg, algCfg⟩
  simp only [passStep] at h
  cases h1 : rlookup resolved alg with
  | some v =>
    simp only [h1] at h
    injection h with h2
    subst h2
    exact Or.inl ⟨rfl, rfl⟩
  | none =>
    simp only [h1] at h
    cases h2 : tbase algCfg.base with
    | some b =>
      simp only [h2] at h
      cases h3 : rlookup resolved b with
      | none =>
        simp only [h3] at h
        cases h4 : rlookup config b with
        | none => simp only [h4] at h; exact Except.noConfusion h
        | some _ =>
          simp only [h4] at h
          injection h with h5
          subst h5
          exact Or.inl ⟨rfl, rfl⟩
      | some baseCfg =>
        simp only [h3] at h
        by_cases h5 : algCfg.name = some alg
        · rw [if_pos h5] at h
          injection h with h6
          subst h6
          exact Or.inr ⟨rfl, h5, ⟨some baseCfg, rfl⟩, rfl⟩
        · rw [if_neg h5] at h
          exact Except.noConfusion h
    | none =>
      simp only [h2] at h
      by_cases h5 : algCfg.name = some alg
      · rw [if_pos h5] at h
        injection h with h6
        subst h6
        exact Or.inr ⟨rfl, h5, ⟨none, rfl⟩, rfl⟩
      · rw [if_neg h5] at h
        exact Except.noConfusion h

theorem passStep_error_shape (config : Registry) (st : Registry × Nat × Nat)
    (e : String × AlgSettings) (err : ObfError)
    (h : passStep config st e = .error err) :
    (∃ b, err = .unknownAlg b) ∨ (∃ a, err = .nameMismatch a) := by
  rcases st with ⟨resolved, np, nwb⟩
  rcases e with ⟨alg, algCfg⟩
  simp only [passStep] at h
  cases h1 : rlookup resolved alg with
  | some v => simp only [h1] at h; exact Except.noConfusion h
  | none =>
    simp only [h1] at h
    cases h2 : tbase algCfg.base with
    | some b =>
      simp only [h2] at h
      cases h3 : rlookup resolved b with
      | none =>
        simp only [h3] at h
        cases h4 : rlookup config b with
        | none =>
          simp only [h4] at h
          injection h with h5
          exact Or.inl ⟨b, h5.symm⟩
        | some _ => simp only [h4] at h; exact Except.noConfusion h
      | some baseCfg =>
        simp only [h3] at h
        by_cases h5 : algCfg.name = some alg
        · rw [if_pos h5] at h; exact Except.noConfusion h
        · rw [if_neg h5] at h
          injection h with h6
          exact Or.inr ⟨alg, h6.symm⟩
    | none =>
      simp only [h2] at h
      by_cases h5 : algCfg.name = some alg
      · rw [if_pos h5] at h; exact Except.noConfusion h
      · rw [if_neg h5] at h
        injection h with h6
        exact Or.inr ⟨alg, h6.symm⟩

theorem passFold_error_shape (config : Registry) :
    ∀ (entries : List (String × AlgSettings)) (st : Registry × Nat × Nat) (err : ObfError),
    passFold config entries st = .error err →
    (∃ b, err = .unknownAlg b) ∨ (∃ a, err = .nameMismatch a)
  | [], st, err, h => by simp [passFold] at h
  | e :: rest, st, err, h => by
    simp only [passFold] at h
    cases hps : passStep config st e with
    | error e2 =>
      rw [hps] at h
      injection h with h2
      subst h2
      exact passStep_error_shape config st e e2 hps
    | ok st1 =>
      rw [hps] at h
      exact passFold_error_shape config rest st1 err h

theorem passFold_ok_facts (config : Registry) :
    ∀ (entries : List (String × AlgSettings)) (st st' : Registry × Nat × Nat),
    passFold config entries st = .ok st' →
    (∀ e ∈ entries, e ∈ config) →
    (keysOf st.1).Nodup →
    (∀ k ∈ keysOf st.1, k ∈ keysOf config) →
    PwInv config st.1 →
    ((keysOf st'.1).Nodup ∧ (∀ k ∈ keysOf st'.1, k ∈ keysOf config) ∧
      PwInv config st'.1 ∧
      st'.1.length + st.2.1 = st.1.length + st'.2.1 ∧ st.2.1 ≤ st'.2.1)
  | [], st, st', h, _, hnd, hsub, hinv => by
    simp only [passFold] at h
    injection h with h2
    subst h2
    exact ⟨hnd, hsub, hinv, rfl, Nat.le_refl _⟩
  | e :: rest, st, st', h, hent, hnd, hsub, hinv => by
    simp only [passFold] at h
    cases hps : passStep config st e with
    | error e2 => rw [hps] at h; exact Except.noConfusion h
    | ok st1 =>
      rw [hps] at h
      rcases passStep_ok_cases config st e st1 hps with ⟨hr, hn⟩ | ⟨hlk, hname, ⟨bc, hr⟩, hn⟩
      · have ih := passFold_ok_facts config rest st1 st' h
          (fun x hx => hent x (List.mem_cons_of_mem _ hx))
          (hr ▸ hnd) (hr ▸ hsub) (hr ▸ hinv)
        refine ⟨ih.1, ih.2.1, ih.2.2.1, ?_, ?_⟩
        · have hl := ih.2.2.2.1
          rw [hr, hn] at hl
          omega
        · have hl := ih.2.2.2.2
          rw [hn] at hl
          exact hl
      · have hkmem : e.1 ∈ keysOf config :=
          key_mem_of_mem config e.1 e.2 (hent e (List.mem_cons_self _ _))
        have hknotin : e.1 ∉ keysOf st.1 := (rlookup_eq_none_iff _ _).mp hlk
        have hnd1 : (keysOf st1.1).Nodup := by
          rw [hr, keysOf_append]
          exact nodup_concat _ _ hnd hknotin
        have hsub1 : ∀ k ∈ keysOf st1.1, k ∈ keysOf config := by
          intro k hk
          rw [hr, keysOf_append] at hk
          rcases List.mem_append.mp hk with hk | hk
          · exact hsub k hk
          · rw [show keysOf [(e.1, resolveMerge bc e.2)] = [e.1] from rfl,
              List.mem_singleton] at hk
            subst hk
            exact hkmem
        have hinv1 : PwInv config st1.1 := by
          intro ent hment
          rw [hr] at hment
          rcases List.mem_append.mp hment with hm | hm
          · exact hinv ent hm
          · rw [List.mem_singleton] at hm
            subst hm
            refine ⟨e.2, hent e (List.mem_cons_self _ _), rfl, ?_, rfl⟩
            show (resolveMerge bc e.2).name = some e.1
            have hproj : (resolveMerge bc e.2).name =
                e.2.name.orElse (fun _ => (bc.getD emptySettings).name) := rfl
            rw [hproj, hname]
            rfl
        have ih := passFold_ok_facts config rest st1 st' h
          (fun x hx => hent x (List.mem_cons_of_mem _ hx)) hnd1 hsub1 hinv1
        refine ⟨ih.1, ih.2.1, ih.2.2.1, ?_, ?_⟩
        · have hlen1 : st1.1.length = st.1.length + 1 := by
            rw [hr, List.length_append]
            rfl
          have hl := ih.2.2.2.1
          rw [hlen1, hn] at hl
          omega
        · have hl := ih.2.2.2.2
          rw [hn] at hl
          omega

theorem passStep_error_cases (config : Registry) (st : Registry × Nat × Nat)
    (e : String × AlgSettings) (err : ObfError)
    (h : passStep config st e = .error err) :
    (∃ b', err = .unknownAlg b' ∧ tbase e.2.base = some b' ∧ rlookup config b' = none) ∨
    (err = .nameMismatch e.1 ∧ ¬(e.2.name = some e.1)) := by
  rcases st with ⟨resolved, np, nwb⟩
  rcases e with ⟨alg, algCfg⟩
  simp only [passStep] at h
  cases h1 : rlookup resolved alg with
  | some v => simp only [h1] at h; exact Except.noConfusion h
  | none =>
    simp only [h1] at h
    cases h2 : tbase algCfg.base with
    | some b =>
      simp only [h2] at h
      cases h3 : rlookup resolved b with
      | none =>
        simp only [h3] at h
        cases h4 : rlookup config b with
        | none =>
          simp only [h4] at h
          injection h with h5
          exact Or.inl ⟨b, h5.symm, rfl, h4⟩
        | some _ => simp only [h4] at h; exact Except.noConfusion h
      | some baseCfg =>
        simp only [h3] at h
        by_cases h5 : algCfg.name = some alg
        · rw [if_pos h5] at h; exact Except.noConfusion h
        · rw [if_neg h5] at h
          injection h with h6
          exact Or.inr ⟨h6.symm, h5⟩
    | none =>
      simp only [h2] at h
      by_cases h5 : algCfg.name = some alg
      · rw [if_pos h5] at h; exact Except.noConfusion h
      · rw [if_neg h5] at h
        injection h with h6
        exact Or.inr ⟨h6.symm, h5⟩

theorem resolveLoop_succ_of_runPass_error (config : Registry) (r : Registry) (e : ObfError)
    (h : runPass config r = .error e) (f : Nat) :
    resolveLoop config (f + 1) r = .error e := by
  simp only [resolveLoop, h]

theorem resolveLoop_error_shape (config : Registry) :
    ∀ (f : Nat) (r : Registry) (err : ObfError),
    resolveLoop config f r = .error err →
    err = .circular ∨ err = .outOfFuel ∨
      (∃ b, err = .unknownAlg b) ∨ (∃ a, err = .nameMismatch a)
  | 0, r, err, h => by
    simp only [resolveLoop] at h
    injection h with h2
    exact Or.inr (Or.inl h2.symm)
  | f + 1, r, err, h => by
    simp only [resolveLoop] at h
    cases hrp : runPass config r with
    | error e2 =>
      simp only [hrp] at h
      injection h with h2
      subst h2
      rcases passFold_error_shape config config (r, 0, 0) e2 hrp with h3 | h3
      · exact Or.inr (Or.inr (Or.inl h3))
      · exact Or.inr (Or.inr (Or.inr h3))
    | ok t =>
      obtain ⟨r', np, nwb⟩ := t
      simp only [hrp] at h
      by_cases h0 : nwb = 0
      · rw [if_pos h0] at h; exact Except.noConfusion h
      · rw [if_neg h0] at h
        by_cases h1 : np = 0
        · rw [if_pos h1] at h
          injection h with h2
          exact Or.inl h2.symm
        · rw [if_neg h1] at h
          exact resolveLoop_error_shape config f r' err h

theorem resolveLoop_ok_PwInv (config : Registry) :
    ∀ (f : Nat) (r reg' : Registry), resolveLoop config f r = .ok reg' →
    (keysOf r).Nodup → (∀ k ∈ keysOf r, k ∈ keysOf config) → PwInv config r →
    PwInv config reg'
  | 0, r, reg', h, _, _, _ => by simp [resolveLoop] at h
  | f + 1, r, reg', h, hnd, hsub, hinv => by
    simp only [resolveLoop] at h
    cases hrp : runPass config r with
    | error e2 => rw [hrp] at h; exact Except.noConfusion h
    | ok t =>
      obtain ⟨r', np, nwb⟩ := t
      simp only [hrp] at h
      have facts := passFold_ok_facts config config (r, 0, 0) (r', np, nwb) hrp
        (fun x hx => hx) hnd hsub hinv
      by_cases h0 : nwb = 0
      · rw [if_pos h0] at h
        injection h with h2
        subst h2
        exact facts.2.2.1
      · rw [if_neg h0] at h
        by_cases h1 : np = 0
        · rw [if_pos h1] at h; exact Except.noConfusion h
        · rw [if_neg h1] at h
          exact resolveLoop_ok_PwInv config f r' reg' h facts.1 facts.2.1 facts.2.2.1

theorem resolveLoop_no_outOfFuel (config : Registry) (hcnd : (keysOf config).Nodup) :
    ∀ (f : Nat) (r : Registry), (keysOf r).Nodup →
    (∀ k ∈ keysOf r, k ∈ keysOf config) →
    PwInv config r →
    config.length + 1 ≤ f + r.length →
    resolveLoop config f r ≠ .error .outOfFuel
  | 0, r, hnd, hsub, hinv, hle => by
    exfalso
    have h2 : (keysOf r).length ≤ (keysOf config).length :=
      (hnd.subperm (fun x hx => hsub x hx)).length_le
    have h1 : r.length ≤ config.length := by
      simpa [keysOf] using h2
    omega
  | f + 1, r, hnd, hsub, hinv, hle => by
    intro hcon
    simp only [resolveLoop] at hcon
    cases hrp : runPass config r with
    | error e2 =>
      simp only [hrp] at hcon
      injection hcon with h2
      subst h2
      rcases passFold_error_shape config config (r, 0, 0) _ hrp with ⟨b, h3⟩ | ⟨a, h3⟩ <;>
        exact ObfError.noConfusion h3
    | ok t =>
      obtain ⟨r', np, nwb⟩ := t
      simp only [hrp] at hcon
      have facts := passFold_ok_facts config config (r, 0, 0) (r', np, nwb) hrp
        (fun x hx => hx) hnd hsub hinv
      by_cases h0 : nwb = 0
      · rw [if_pos h0] at hcon; exact Except.noConfusion hcon
      · rw [if_neg h0] at hcon
        by_cases h1 : np = 0
        · rw [if_pos h1] at hcon
          injection hcon with h2
          exact ObfError.noConfusion h2
        · rw [if_neg h1] at hcon
          have hlen : r'.length + 0 = r.length + np := facts.2.2.2.1
          exact resolveLoop_no_outOfFuel config hcnd f r' facts.1 facts.2.1 facts.2.2.1
            (by omega) hcon

theorem passFold_unknown (config : Registry) (b : String)
    (hnames : ∀ e ∈ config, e.2.name = some e.1)
    (huniq : ∀ e ∈ config, ∀ b', tbase e.2.base = some b' → b' ∉ keysOf config → b' = b)
    (hbmiss : b ∉ keysOf config) :
    ∀ (entries : List (String × AlgSettings)) (st : Registry × Nat × Nat)
      (k₀ : String) (s₀ : AlgSettings),
    (∀ e ∈ entries, e ∈ config) → (keysOf entries).Nodup →
    (∀ k ∈ keysOf st.1, k ∈ keysOf config) →
    (k₀, s₀) ∈ entries → tbase s₀.base = some b →
    k₀ ∉ keysOf st.1 →
    passFold config entries st = .error (.unknownAlg b)
  | [], st, k₀, s₀, _, _, _, hmem, _, _ => by simp at hmem
  | e :: rest, st, k₀, s₀, hent, hndent, hsub, hmem, hbase, hk₀ => by
    have hndrest := List.nodup_cons.mp (show (e.1 :: keysOf rest).Nodup from hndent)
    cases hps : passStep config st e with
    | error e2 =>
      rcases passStep_error_cases config st e e2 hps with ⟨b', he2, hb', hmiss⟩ | ⟨_, hname⟩
      · have hb'm : b' ∉ keysOf config := (rlookup_eq_none_iff _ _).mp hmiss
        have hbb : b' = b := huniq e (hent e (List.mem_cons_self _ _)) b' hb' hb'm
        subst hbb
        subst he2
        simp only [passFold, hps]
      · exact absurd (hnames e (hent e (List.mem_cons_self _ _))) hname
    | ok st1 =>
      rcases List.mem_cons.mp hmem with heq | hmem'
      · subst heq
        have h1 : rlookup st.1 k₀ = none := (rlookup_eq_none_iff _ _).mpr hk₀
        have h2 : rlookup st.1 b = none :=
          (rlookup_eq_none_iff _ _).mpr (fun hb2 => hbmiss (hsub b hb2))
        have h3 : rlookup config b = none := (rlookup_eq_none_iff _ _).mpr hbmiss
        have hcontra : passStep config st (k₀, s₀) = .error (.unknownAlg b) := by
          rcases st with ⟨resolved, np, nwb⟩
          simp only [passStep, h1, hbase, h2, h3]
        rw [hcontra] at hps
        exact Except.noConfusion hps
      · have hrec : passFold config rest st1 = .error (.unknownAlg b) := by
          rcases passStep_ok_cases config st e st1 hps with ⟨hr, _⟩ | ⟨_, _, ⟨bc, hr⟩, _⟩
          · exact passFold_unknown config b hnames huniq hbmiss rest st1 k₀ s₀
              (fun x hx => hent x (List.mem_cons_of_mem _ hx)) hndrest.2
              (fun k hk => hsub k (hr ▸ hk)) hmem' hbase (fun hc => hk₀ (hr ▸ hc))
          · have hk₀ne : k₀ ≠ e.1 := by
              intro hc
              subst hc
              exact hndrest.1 (key_mem_of_mem rest e.1 s₀ hmem')
            refine passFold_unknown config b hnames huniq hbmiss rest st1 k₀ s₀
              (fun x hx => hent x (List.mem_cons_of_mem _ hx)) hndrest.2
              ?_ hmem' hbase ?_
            · intro k hk
              rw [hr, keysOf_append] at hk
              rcases List.mem_append.mp hk with hk | hk
              · exact hsub k hk
              · rw [show keysOf [(e.1, resolveMerge bc e.2)] = [e.1] from rfl,
                  List.mem_singleton] at hk
                subst hk
                exact key_mem_of_mem config e.1 e.2 (hent e (List.mem_cons_self _ _))
            · intro hc
              rw [hr, keysOf_append] at hc
              rcases List.mem_append.mp hc with hc | hc
              · exact hk₀ hc
              · rw [show keysOf [(e.1, resolveMerge bc e.2)] = [e.1] from rfl,
                  List.mem_singleton] at hc
                exact hk₀ne hc
        simp only [passFold, hps]
        exact hrec

theorem keysOf_map_replace (reg : Registry) (k : String) (g : AlgSettings → AlgSettings) :
    keysOf (reg.map (fun e => if e.1 = k then (k, g e.2) else e)) = keysOf reg := by
  induction reg with
  | nil => rfl
  | cons e rest ih =>
    show keysOf ((if e.1 = k then (k, g e.2) else e) :: _) = keysOf (e :: rest)
    rw [keysOf_cons, keysOf_cons, ih]
    by_cases h : e.1 = k
    · rw [if_pos h, h]
    · rw [if_neg h]

theorem rlookup_map_replace_self (reg : Registry) (k : String) (g : AlgSettings → AlgSettings)
    (x : AlgSettings) (h : rlookup reg k = some x) :
    rlookup (reg.map (fun e => if e.1 = k then (k, g e.2) else e)) k = some (g x) := by
  induction reg with
  | nil => simp [rlookup] at h
  | cons e rest ih =>
    obtain ⟨k₁, v₁⟩ := e
    by_cases h1 : k₁ = k
    · subst h1
      simp only [rlookup, if_pos rfl] at h
      injection h with h2
      subst h2
      show rlookup ((if k₁ = k₁ then (k₁, g v₁) else (k₁, v₁)) :: _) k₁ = some (g v₁)
      rw [if_pos rfl]
      simp [rlookup]
    · simp only [rlookup, if_neg h1] at h
      show rlookup ((if k₁ = k then (k, g v₁) else (k₁, v₁)) :: _) k = some (g x)
      rw [if_neg h1]
      simp only [rlookup, if_neg h1]
      exact ih h

theorem rlookup_map_replace_other (reg : Registry) (k : String) (g : AlgSettings → AlgSettings)
    (k' : String) (h : k' ≠ k) :
    rlookup (reg.map (fun e => if e.1 = k then (k, g e.2) else e)) k' = rlookup reg k' := by
  induction reg with
  | nil => rfl
  | cons e rest ih =>
    obtain ⟨k₁, v₁⟩ := e
    by_cases h1 : k₁ = k
    · subst h1
      show rlookup ((if k₁ = k₁ then (k₁, g v₁) else (k₁, v₁)) :: _) k' = _
      rw [if_pos rfl]
      have h2 : k₁ ≠ k' := fun hc => h (hc ▸ rfl)
      simp only [rlookup, if_neg h2]
      exact ih
    · show rlookup ((if k₁ = k then (k, g v₁) else (k₁, v₁)) :: _) k' = _
      rw [if_neg h1]
      simp only [rlookup]
      by_cases h2 : k₁ = k'
      · rw [if_pos h2, if_pos h2]
      · rw [if_neg h2, if_neg h2]
        exact ih

theorem keysOf_rupdate (reg : Registry) (k : String) (v : AlgSettings) :
    keysOf (rupdate reg k v) = keysOf reg :=
  keysOf_map_replace reg k (fun _ => v)

theorem rlookup_rupdate_self (reg : Registry) (k : String) (v x : AlgSettings)
    (h : rlookup reg k = some x) : rlookup (rupdate reg k v) k = some v :=
  rlookup_map_replace_self reg k (fun _ => v) x h

theorem rlookup_rupdate_other (reg : Registry) (k : String) (v : AlgSettings)
    (k' : String) (h : k' ≠ k) : rlookup (rupdate reg k v) k' = rlookup reg k' :=
  rlookup_map_replace_other reg k (fun _ => v) k' h

theorem NamesOk_rupdate (reg : Registry) (k : String) (v : AlgSettings)
    (hN : NamesOk reg) (hv : v.name = some k) : NamesOk (rupdate reg k v) := by
  intro e he
  rcases List.mem_map.mp he with ⟨a, ha, hfe⟩
  by_cases h1 : a.1 = k
  · rw [if_pos h1] at hfe
    subst hfe
    exact hv
  · rw [if_neg h1] at hfe
    subst hfe
    exact hN a ha

theorem passStepA_cases (st : Registry × Nat × Nat) (k : String) (st' : Registry × Nat × Nat)
    (h : passStepA st k = .ok st') :
    ((st'.1 = st.1 ∧ st'.2.2 = st.2.2) ∧
      (rlookup st.1 k = none ∨ (∃ c, rlookup st.1 k = some c ∧ tbase c.base = none))) ∨
    (∃ algCfg baseCfg, rlookup st.1 k = some algCfg ∧
      tbase baseCfg.base = none ∧
      st'.1 = rupdate st.1 k (resolveMergeA baseCfg { algCfg with base := none }) ∧
      st'.2.2 = st.2.2) ∨
    (st'.1 = st.1 ∧ st'.2.2 = st.2.2 + 1) := by
  rcases st with ⟨reg, np, nwb⟩
  simp only [passStepA] at h
  cases h1 : rlookup reg k with
  | none =>
    simp only [h1] at h
    injection h with h2
    subst h2
    exact Or.inl ⟨⟨rfl, rfl⟩, Or.inl rfl⟩
  | some algCfg =>
    simp only [h1] at h
    cases h2 : tbase algCfg.base with
    | none =>
      simp only [h2] at h
      injection h with h3
      subst h3
      exact Or.inl ⟨⟨rfl, rfl⟩, Or.inr ⟨algCfg, rfl, h2⟩⟩
    | some b =>
      simp only [h2] at h
      cases h3 : rlookup reg b with
      | none => simp only [h3] at h; exact Except.noConfusion h
      | some baseCfg =>
        simp only [h3] at h
        cases h4 : tbase baseCfg.base with
        | none =>
          simp only [h4] at h
          injection h with h5
          subst h5
          exact Or.inr (Or.inl ⟨algCfg, baseCfg, rfl, h4, rfl, rfl⟩)
        | some b2 =>
          simp only [h4] at h
          injection h with h5
          subst h5
          exact Or.inr (Or.inr ⟨rfl, rfl⟩)

theorem passFoldA_facts :
    ∀ (ks : List String) (st st' : Registry × Nat × Nat),
    passFoldA ks st = .ok st' →
    keysOf st'.1 = keysOf st.1 ∧ st.2.2 ≤ st'.2.2
  | [], st, st', h => by
    simp only [passFoldA] at h
    injection h with h2
    subst h2
    exact ⟨rfl, Nat.le_refl _⟩
  | k :: rest, st, st', h => by
    simp only [passFoldA] at h
    cases hps : passStepA st k with
    | error e2 => rw [hps] at h; exact Except.noConfusion h
    | ok st1 =>
      rw [hps] at h
      have ih := passFoldA_facts rest st1 st' h
      rcases passStepA_cases st k st1 hps with ⟨⟨hr, hn⟩, _⟩ | ⟨a, b2, _, _, hr, hn⟩ | ⟨hr, hn⟩
      · exact ⟨by rw [ih.1, hr], by have h2 := ih.2; omega⟩
      · refine ⟨?_, by have h2 := ih.2; omega⟩
        rw [ih.1, hr, keysOf_rupdate]
      · exact ⟨by rw [ih.1, hr], by have h2 := ih.2; omega⟩

theorem passFoldA_names :
    ∀ (ks : List String) (st st' : Registry × Nat × Nat),
    NamesOk st.1 → passFoldA ks st = .ok st' → NamesOk st'.1
  | [], st, st', hN, h => by
    simp only [passFoldA] at h
    injection h with h2
    subst h2
    exact hN
  | k :: rest, st, st', hN, h => by
    simp only [passFoldA] at h
    cases hps : passStepA st k with
    | error e2 => rw [hps] at h; exact Except.noConfusion h
    | ok st1 =>
      rw [hps] at h
      rcases passStepA_cases st k st1 hps with ⟨⟨hr, _⟩, _⟩ | ⟨a, b2, hlk, _, hr, _⟩ | ⟨hr, _⟩
      · exact passFoldA_names rest st1 st' (hr ▸ hN) h
      · refine passFoldA_names rest st1 st' ?_ h
        rw [hr]
        refine NamesOk_rupdate _ _ _ hN ?_
        have hna : a.name = some k := hN (k, a) (rlookup_mem _ _ _ hlk)
        show ({ a with base := none } : AlgSettings).name.orElse (fun _ => b2.name) = some k
        have hproj : ({ a with base := none } : AlgSettings).name = a.name := rfl
        rw [hproj, hna]
        rfl
      · exact passFoldA_names rest st1 st' (hr ▸ hN) h

theorem passFoldA_untouched :
    ∀ (ks : List String) (st st' : Registry × Nat × Nat),
    passFoldA ks st = .ok st' →
    ∀ k, k ∉ ks → rlookup st'.1 k = rlookup st.1 k
  | [], st, st', h => by
    simp only [passFoldA] at h
    injection h with h2
    subst h2
    exact fun k _ => rfl
  | k₁ :: rest, st, st', h => by
    simp only [passFoldA] at h
    cases hps : passStepA st k₁ with
    | error e2 => rw [hps] at h; exact fun k hk => absurd h (by simp)
    | ok st1 =>
      rw [hps] at h
      intro k hk
      have hk1 : k ∉ rest := fun hc => hk (List.mem_cons_of_mem _ hc)
      have hkne : k ≠ k₁ := fun hc => hk (hc ▸ List.mem_cons_self _ _)
      have ih := passFoldA_untouched rest st1 st' h k hk1
      rcases passStepA_cases st k₁ st1 hps with ⟨⟨hr, _⟩, _⟩ | ⟨a, b2, _, _, hr, _⟩ | ⟨hr, _⟩
      · rw [ih, hr]
      · rw [ih, hr, rlookup_rupdate_other _ _ _ _ hkne]
      · rw [ih, hr]

theorem passFoldA_flat :
    ∀ (ks : List String) (st st' : Registry × Nat × Nat),
    passFoldA ks st = .ok st' → st'.2.2 = st.2.2 → ks.Nodup →
    ∀ k ∈ ks, ∀ s, rlookup st'.1 k = some s → tbase s.base = none
  | [], _, _, _, _, _ => by intro k hk; simp at hk
  | k₁ :: rest, st, st', h, hnwb, hnd => by
    have hnd2 := List.nodup_cons.mp hnd
    simp only [passFoldA] at h
    cases hps : passStepA st k₁ with
    | error e2 => rw [hps] at h; exact absurd h (by simp)
    | ok st1 =>
      rw [hps] at h
      have hfacts := passFoldA_facts rest st1 st' h
      intro k hk s hs
      rcases passStepA_cases st k₁ st1 hps with
        ⟨⟨hr, hn⟩, hsk⟩ | ⟨a, b2, hlk, hb2, hr, hn⟩ | ⟨hr, hn⟩
      · rcases List.mem_cons.mp hk with hk | hk
        · subst hk
          have huntouched := passFoldA_untouched rest st1 st' h k hnd2.1
          rw [huntouched, hr] at hs
          rcases hsk with hsk | ⟨c, hc1, hc2⟩
          · rw [hsk] at hs; exact Option.noConfusion hs
          · rw [hc1] at hs
            injection hs with hs2
            subst hs2
            exact hc2
        · exact passFoldA_flat rest st1 st' h (by omega) hnd2.2 k hk s hs
      · rcases List.mem_cons.mp hk with hk | hk
        · subst hk
          have huntouched := passFoldA_untouched rest st1 st' h k hnd2.1
          rw [huntouched, hr, rlookup_rupdate_self _ _ _ _ hlk] at hs
          injection hs with hs2
          subst hs2
          show tbase (resolveMergeA b2 { a with base := none }).base = none
          have hproj : (resolveMergeA b2 { a with base := none }).base = b2.base := rfl
          rw [hproj]
          exact hb2
        · exact passFoldA_flat rest st1 st' h (by omega) hnd2.2 k hk s hs
      · exfalso
        have := hfacts.2
        omega

theorem resolveLoopA_ok_flat :
    ∀ (f : Nat) (reg reg' : Registry), (keysOf reg).Nodup → NamesOk reg →
    resolveLoopA f reg = .ok reg' →
    ∀ e ∈ reg', tbase e.2.base = none ∧ e.2.name = some e.1
  | 0, reg, reg', _, _, h => by simp [resolveLoopA] at h
  | f + 1, reg, reg', hnd, hN, h => by
    simp only [resolveLoopA] at h
    cases hrp : runPassA reg with
    | error e2 => simp only [hrp] at h; exact absurd h (by simp)
    | ok t =>
      obtain ⟨r, np, nwb⟩ := t
      simp only [hrp] at h
      have hfacts := passFoldA_facts (keysOf reg) (reg, 0, 0) (r, np, nwb) hrp
      have hNr : NamesOk r := passFoldA_names (keysOf reg) (reg, 0, 0) (r, np, nwb) hN hrp
      have hkeys : keysOf r = keysOf reg := hfacts.1
      by_cases h0 : nwb = 0
      · rw [if_pos h0] at h
        injection h with h2
        subst h2
        intro e he
        refine ⟨?_, hNr e he⟩
        have hepos : e.1 ∈ keysOf reg := by
          rw [← hkeys]
          exact key_mem_of_mem _ e.1 e.2 he
        have hlk : rlookup r e.1 = some e.2 :=
          rlookup_of_mem_nodup _ _ _ he (by rw [hkeys]; exact hnd)
        exact passFoldA_flat (keysOf reg) (reg, 0, 0) (r, np, nwb) hrp
          (by simpa using h0) hnd e.1 hepos e.2 hlk
      · rw [if_neg h0] at h
        by_cases h1 : np = 0
        · rw [if_pos h1] at h; exact absurd h (by simp)
        · rw [if_neg h1] at h
          exact resolveLoopA_ok_flat f r reg' (by rw [hkeys]; exact hnd) hNr h

theorem checkNames_ok : ∀ (reg : Registry), checkNames reg = .ok () → NamesOk reg
  | [], _ => fun e he => absurd he (List.not_mem_nil e)
  | (k, s) :: rest, h => by
    intro e he
    simp only [checkNames] at h
    by_cases h1 : s.name = some k
    · rw [if_pos h1] at h
      rcases List.mem_cons.mp he with he | he
      · subst he
        exact h1
      · exact checkNames_ok rest h e he
    · rw [if_neg h1] at h
      exact absurd h (by simp)

theorem rlookup_setOrMerge_other (reg : Registry) (k : String) (p : AlgPatch)
    (k' : String) (h : k' ≠ k) : rlookup (setOrMerge reg k p) k' = rlookup reg k' := by
  unfold setOrMerge
  by_cases h1 : (rlookup reg k).isSome
  · rw [if_pos h1]
    exact rlookup_map_replace_other reg k (fun t => mergeEntry t p) k' h
  · rw [if_neg h1]
    rw [rlookup_append]
    cases h2 : rlookup reg k' with
    | some v => rfl
    | none =>
      show rlookup [(k, mergeEntry emptySettings p)] k' = none
      simp only [rlookup]
      rw [if_neg (fun hc : k = k' => h hc.symm)]

theorem rlookup_setOrMerge_self (reg : Registry) (k : String) (p : AlgPatch) :
    rlookup (setOrMerge reg k p) k =
      some (mergeEntry ((rlookup reg k).getD emptySettings) p) := by
  unfold setOrMerge
  cases h1 : rlookup reg k with
  | some x =>
    rw [if_pos (show (some x : Option AlgSettings).isSome = true from rfl)]
    have h2 := rlookup_map_replace_self reg k (fun t => mergeEntry t p) x h1
    rw [h2]
    rfl
  | none =>
    rw [if_neg (show ¬((none : Option AlgSettings).isSome = true) from by simp)]
    simp only [rlookup_append, h1]
    simp [rlookup]

theorem keysOf_setOrMerge_nodup (reg : Registry) (k : String) (p : AlgPatch)
    (h : (keysOf reg).Nodup) : (keysOf (setOrMerge reg k p)).Nodup := by
  unfold setOrMerge
  by_cases h1 : (rlookup reg k).isSome
  · rw [if_pos h1]
    have h3 : keysOf (reg.map (fun e => if e.1 = k then (k, mergeEntry e.2 p) else e)) =
        keysOf reg := keysOf_map_replace reg k (fun t => mergeEntry t p)
    rw [h3]
    exact h
  · rw [if_neg h1, keysOf_append]
    refine nodup_concat _ _ h ?_
    intro hc
    have hc2 : k ∈ keysOf reg := hc
    have hn : rlookup reg k = none := by
      cases ho : rlookup reg k with
      | none => rfl
      | some v => rw [ho] at h1; exact absurd rfl h1
    exact (rlookup_eq_none_iff reg k).mp hn hc2

theorem applyLayer_nodup :
    ∀ (layer : Layer) (reg : Registry), (keysOf reg).Nodup →
    (keysOf (applyLayer reg layer)).Nodup
  | [], _, h => h
  | kp :: rest, reg, h =>
    applyLayer_nodup rest (setOrMerge reg kp.1 kp.2) (keysOf_setOrMerge_nodup reg kp.1 kp.2 h)

theorem rlookup_applyLayer_notin :
    ∀ (layer : Layer) (reg : Registry) (k : String), k ∉ keysOf layer →
    rlookup (applyLayer reg layer) k = rlookup reg k
  | [], _, _, _ => rfl
  | kp :: rest, reg, k, hk => by
    have h1 : k ∉ keysOf rest := fun hc => hk (List.mem_cons_of_mem _ hc)
    have h2 : k ≠ kp.1 := fun hc => hk (hc ▸ List.mem_cons_self _ _)
    show rlookup (applyLayer (setOrMerge reg kp.1 kp.2) rest) k = rlookup reg k
    rw [rlookup_applyLayer_notin rest _ k h1, rlookup_setOrMerge_other _ _ _ _ h2]

theorem rlookup_applyLayer_fresh :
    ∀ (layer : Layer) (reg : Registry) (k : String) (p : AlgPatch),
    (keysOf layer).Nodup → rlookup layer k = some p → rlookup reg k = none →
    rlookup (applyLayer reg layer) k = some (mergeEntry emptySettings p)
  | [], _, _, _, _, hp, _ => by simp [rlookup] at hp
  | (k₁, p₁) :: rest, reg, k, p, hnd, hp, hreg => by
    have hnd2 := List.nodup_cons.mp (show (k₁ :: keysOf rest).Nodup from hnd)
    by_cases h1 : k₁ = k
    · subst h1
      simp only [rlookup, if_pos rfl] at hp
      injection hp with hp2
      show rlookup (applyLayer (setOrMerge reg k₁ p₁) rest) k₁ = _
      rw [rlookup_applyLayer_notin rest _ k₁ hnd2.1, rlookup_setOrMerge_self, hreg, hp2]
      rfl
    · simp only [rlookup, if_neg h1] at hp
      show rlookup (applyLayer (setOrMerge reg k₁ p₁) rest) k = _
      exact rlookup_applyLayer_fresh rest (setOrMerge reg k₁ p₁) k p hnd2.2 hp
        (by rw [rlookup_setOrMerge_other _ _ _ _ (fun hc => h1 hc.symm)]; exact hreg)

theorem generateKey_ok (P : CryptoProvider) (s : AlgSettings)
    (pw salt hsh a : String) (iter klen : Nat)
    (hpw : s.password = some pw) (hlen : 8 ≤ pw.length)
    (hsalt : s.salt = some salt) (hiter : s.iterations = some iter)
    (hhash : s.hash = some hsh) (halg : s.alg = some a)
    (hklen : P.keyLength a = some klen) :
    generateKey P s = .ok (P.pbkdf2 pw salt iter klen hsh) := by
  simp only [generateKey, hpw, halg, hsalt, hiter, hhash, hklen]
  rw [if_neg (by omega)]

theorem generateKey_short (P : CryptoProvider) (s : AlgSettings) (pw : String)
    (hpw : s.password = some pw) (hlen : pw.length < 8) :
    generateKey P s = .error (.passwordTooShort s.name) := by
  simp only [generateKey, hpw]
  rw [if_pos hlen]

theorem getKey_cached (P : CryptoProvider) (cache : Cache) (s : AlgSettings) (key : List Nat)
    (h : clookup cache s.name = some key) : getKey P cache s = .ok (key, cache) := by
  simp [getKey, h]

theorem getKey_fresh (P : CryptoProvider) (cache : Cache) (s : AlgSettings) (key : List Nat)
    (h : clookup cache s.name = none) (hg : generateKey P s = .ok key) :
    getKey P cache s = .ok (key, cache ++ [(s.name, key)]) := by
  simp [getKey, h, hg]

theorem getKey_fresh_err (P : CryptoProvider) (cache : Cache) (s : AlgSettings) (e : ObfError)
    (h : clookup cache s.name = none) (hg : generateKey P s = .error e) :
    getKey P cache s = .error e := by
  simp [getKey, h, hg]

theorem encodeRaw_of_getKey (P : CryptoProvider) (reg : Registry) (cache cache' : Cache)
    (now : Int) (iv : List Nat) (alg : String) (val : List Nat) (s : AlgSettings)
    (key : List Nat) (a : String)
    (hreg : rlookup reg alg = some s)
    (hexp : isAfterCheckDate P.dateParse s.doNotEncodeAfter now = false)
    (hgk : getKey P cache s = .ok (key, cache'))
    (halg : s.alg = some a) :
    encodeRaw P reg cache now iv alg val =
      .ok (alg.toList ++ ':' ::
            (P.toText s.binEncoding iv ++ ':' ::
              P.toText s.binEncoding (P.encrypt a key iv val)),
          cache') := by
  simp only [encodeRaw, hreg]
  rw [hexp]
  rw [if_neg (by simp)]
  simp only [hgk, halg]

theorem encodeRaw_of_getKey_err (P : CryptoProvider) (reg : Registry) (cache : Cache)
    (now : Int) (iv : List Nat) (alg : String) (val : List Nat) (s : AlgSettings)
    (e : ObfError)
    (hreg : rlookup reg alg = some s)
    (hexp : isAfterCheckDate P.dateParse s.doNotEncodeAfter now = false)
    (hgk : getKey P cache s = .error e) :
    encodeRaw P reg cache now iv alg val = .error e := by
  simp only [encodeRaw, hreg]
  rw [hexp]
  rw [if_neg (by simp)]
  simp only [hgk]

theorem decodeRaw_of_getKey (P : CryptoProvider) (reg : Registry) (cache cache' : Cache)
    (alg : String) (s : AlgSettings) (key : List Nat) (ivT ctT : List Char) (a : String)
    (hreg : rlookup reg alg = some s)
    (halgc : ':' ∉ alg.toList) (hivT : ':' ∉ ivT) (hctT : ':' ∉ ctT)
    (hgk : getKey P cache s = .ok (key, cache'))
    (halg : s.alg = some a) :
    decodeRaw P reg cache (alg.toList ++ ':' :: (ivT ++ ':' :: ctT)) =
      (match P.decrypt a key (P.fromText s.binEncoding ivT) (P.fromText s.binEncoding ctT) with
        | none => .error .integrity
        | some data => .ok (s, data, cache')) := by
  simp only [decodeRaw, splitChar_three ':' _ _ _ halgc hivT hctT]
  have hmk : String.mk alg.toList = alg := rfl
  rw [hmk]
  simp only [hreg, hgk, halg]

theorem decodeRaw_of_getKey_err (P : CryptoProvider) (reg : Registry) (cache : Cache)
    (alg : String) (s : AlgSettings) (ivT ctT : List Char) (e : ObfError)
    (hreg : rlookup reg alg = some s)
    (halgc : ':' ∉ alg.toList) (hivT : ':' ∉ ivT) (hctT : ':' ∉ ctT)
    (hgk : getKey P cache s = .error e) :
    decodeRaw P reg cache (alg.toList ++ ':' :: (ivT ++ ':' :: ctT)) = .error e := by
  simp only [decodeRaw, splitChar_three ':' _ _ _ halgc hivT hctT]
  have hmk : String.mk alg.toList = alg := rfl
  rw [hmk]
  simp only [hreg, hgk]

theorem generateKey_error_shape (P : CryptoProvider) (s : AlgSettings) (e : ObfError)
    (h : generateKey P s = .error e) :
    e = .typeError ∨ e = .passwordTooShort s.name := by
  simp only [generateKey] at h
  cases h1 : s.password with
  | none =>
    simp only [h1] at h
    injection h with h2
    exact Or.inl h2.symm
  | some pw =>
    simp only [h1] at h
    by_cases h2 : pw.length < 8
    · rw [if_pos h2] at h
      injection h with h3
      exact Or.inr h3.symm
    · rw [if_neg h2] at h
      cases h3 : s.alg with
      | none =>
        simp only [h3] at h
        injection h with h7
        exact Or.inl h7.symm
      | some a =>
        simp only [h3] at h
        cases h4 : s.salt with
        | none =>
          simp only [h4] at h
          injection h with h7
          exact Or.inl h7.symm
        | some salt =>
          simp only [h4] at h
          cases h5 : s.iterations with
          | none =>
            simp only [h5] at h
            injection h with h7
            exact Or.inl h7.symm
          | some iter =>
            simp only [h5] at h
            cases h6 : s.hash with
            | none =>
              simp only [h6] at h
              injection h with h7
              exact Or.inl h7.symm
            | some hsh =>
              simp only [h6] at h
              cases h7 : P.keyLength a with
              | none =>
                simp only [h7] at h
                injection h with h8
                exact Or.inl h8.symm
              | some klen =>
                simp only [h7] at h
                exact Except.noConfusion h

theorem getKey_error_shape (P : CryptoProvider) (cache : Cache) (s : AlgSettings)
    (e : ObfError) (h : getKey P cache s = .error e) :
    e = .typeError ∨ e = .passwordTooShort s.name := by
  simp only [getKey] at h
  cases h1 : clookup cache s.name with
  | some k => simp only [h1] at h; exact Except.noConfusion h
  | none =>
    simp only [h1] at h
    cases h2 : generateKey P s with
    | error e2 =>
      simp only [h2] at h
      injection h with h3
      subst h3
      exact generateKey_error_shape P s e2 h2
    | ok k => simp only [h2] at h; exact Except.noConfusion h

/-- C9: the expiry predicate `_isAfterCheckDate` returns `false` when no
limit is set; otherwise, with the limit string parsed by the external
`Date.parse` collaborator (a date-only ISO string parses at its start of
day in the fixed UTC reference timezone) to the instant `dt`, it returns
`true` exactly when `dt ≤ now`, so the boundary instant itself counts as
expired.  On the concrete scenario: limit `"2020-01-01"` is expired at its
own start of day and on 2020-01-02, and not expired on 2019-12-31. -/
theorem expiry_predicate :
    (∀ (parse : String → Option Int) (now : Int),
      isAfterCheckDate parse none now = false) ∧
    (∀ (parse : String → Option Int) (l : String) (now dt : Int),
      parse l = some dt →
      (isAfterCheckDate parse (some l) now = true ↔ dt ≤ now)) ∧
    isAfterCheckDate testDateParse (some "2020-01-01") 1577836800000 = true ∧
    isAfterCheckDate testDateParse (some "2020-01-01") 1577750400000 = false ∧
    isAfterCheckDate testDateParse (some "2020-01-01") 1577923200000 = true := by
  refine ⟨fun parse now => rfl, fun parse l now dt hp => ?_, by decide, by decide, by decide⟩
  simp [isAfterCheckDate, hp]

/-- Witness for the expiry predicate: the boundary instant of the concrete
limit satisfies the two-sided characterisation. -/
theorem expiry_predicate_witness :
    isAfterCheckDate testDateParse (some "2020-01-01") 1577836800000 = true ↔
      (1577836800000 : Int) ≤ 1577836800000 :=
  expiry_predicate.2.1 testDateParse "2020-01-01" 1577836800000 1577836800000 (by decide)

/-- C10: a `doNotEncodeAfter` string on which `Date.parse` yields `NaN`
makes the expiry predicate false at every instant, so encoding under an
algorithm with such a malformed limit never fails with `AlgExpired` — the
algorithm is silently treated as never expiring; the concrete registry
entry with limit `"not-a-date"` encodes successfully. -/
theorem malformed_limit_never_expires :
    (∀ (parse : String → Option Int) (l : String) (now : Int),
      parse l = none → isAfterCheckDate parse (some l) now = false) ∧
    (∀ (P : CryptoProvider) (reg : Registry) (cache : Cache) (now : Int)
       (iv val : List Nat) (alg : String) (s : AlgSettings) (l : String) (a' : String),
      rlookup reg alg = some s → s.doNotEncodeAfter = some l → P.dateParse l = none →
      encodeRaw P reg cache now iv alg val ≠ .error (.algExpired a')) ∧
    (∃ tok c, encodeRaw toyProvider badDateRegistry [] 0 [1] "foo" [2, 3] = .ok (tok, c)) := by
  refine ⟨fun parse l now hp => by simp [isAfterCheckDate, hp], ?_, ⟨_, _, rfl⟩⟩
  intro P reg cache now iv val alg s l a' hreg hdna hparse hcon
  have hexp : isAfterCheckDate P.dateParse s.doNotEncodeAfter now = false := by
    rw [hdna]
    simp [isAfterCheckDate, hparse]
  simp only [encodeRaw, hreg] at hcon
  rw [hexp] at hcon
  rw [if_neg (by simp)] at hcon
  cases hgk : getKey P cache s with
  | error e =>
    simp only [hgk] at hcon
    injection hcon with h2
    rcases getKey_error_shape P cache s e hgk with h3 | h3 <;>
      (subst h2; exact ObfError.noConfusion h3)
  | ok kc =>
    obtain ⟨key, cache'⟩ := kc
    simp only [hgk] at hcon
    cases h4 : s.alg with
    | none =>
      simp only [h4] at hcon
      injection hcon with h5
      exact ObfError.noConfusion h5
    | some a =>
      simp only [h4] at hcon
      exact Except.noConfusion hcon

/-- Witness for C10 at concrete inputs: the unparseable limit is not
expired at instant 0, and encoding with the mis-dated entry does not fail
with `AlgExpired`. -/
theorem malformed_limit_never_expires_witness :
    isAfterCheckDate testDateParse (some "nope") 0 = false ∧
    encodeRaw toyProvider badDateRegistry [] 0 [1] "foo" [2, 3] ≠
      .error (.algExpired "foo") := by
  constructor
  · exact malformed_limit_never_expires.1 testDateParse "nope" 0 (by decide)
  · exact malformed_limit_never_expires.2.1 toyProvider badDateRegistry [] 0 [1] [2, 3]
      "foo" badDateResolved "not-a-date" "foo" (by decide) (by decide) (by decide)

/-- C7: an older-variant `Obfuscator` instance whose configuration is
locked fails every further `configure` call with `AlreadyConfigured`
before touching any state (an error in this embedding returns no new
state, so the resolved registry and key cache are unchanged); constructing
with a config consumes the one allowed configuration, while constructing
without one leaves the instance open for exactly one `configure` call,
which locks it. -/
theorem one_shot_configure :
    (∀ (st : ObfA) (cfg : Option Layer), st.locked = true →
      configureStepA st cfg = .error .alreadyConfigured) ∧
    (∀ (l : Layer) (st : ObfA), mkObfuscatorA (some l) = .ok st →
      st.locked = true ∧
      ∀ cfg', configureStepA st cfg' = .error .alreadyConfigured) ∧
    (∀ (st : ObfA), mkObfuscatorA none = .ok st →
      st.locked = false ∧
      ∀ (l' : Layer) (st' : ObfA), configureStepA st (some l') = .ok st' →
        st'.locked = true ∧
        ∀ cfg'', configureStepA st' cfg'' = .error .alreadyConfigured) := by
  have hlockstep : ∀ (st : ObfA) (cfg : Option Layer), st.locked = true →
      configureStepA st cfg = .error .alreadyConfigured := by
    intro st cfg h
    simp [configureStepA, h]
  have hok : ∀ (cfg : Option Layer) (st : ObfA), mkObfuscatorA cfg = .ok st →
      st.locked = cfg.isSome := by
    intro cfg st h
    simp only [mkObfuscatorA] at h
    cases hc : configureACore cfg with
    | error e => simp only [hc] at h; exact absurd h (by simp)
    | ok reg =>
      simp only [hc] at h
      injection h with h2
      subst h2
      rfl
  refine ⟨hlockstep, ?_, ?_⟩
  · intro l st h
    have h1 : st.locked = true := hok (some l) st h
    exact ⟨h1, fun cfg' => hlockstep st cfg' h1⟩
  · intro st h
    have h1 : st.locked = false := hok none st h
    refine ⟨h1, ?_⟩
    intro l' st' h2
    simp only [configureStepA, h1] at h2
    rw [if_neg (by simp)] at h2
    cases hc : configureACore (some l') with
    | error e => simp only [hc] at h2; exact absurd h2 (by simp)
    | ok reg =>
      simp only [hc] at h2
      injection h2 with h3
      subst h3
      exact ⟨rfl, fun cfg'' => hlockstep _ cfg'' rfl⟩

/-- Witness for C7: the no-config instance starts unlocked, and after its
one `configure` call the instance refuses reconfiguration. -/
theorem one_shot_configure_witness :
    obfA0.locked = false ∧
    configureStepA obfA1 none = .error .alreadyConfigured := by
  have h0 : mkObfuscatorA none = .ok obfA0 := by decide
  refine ⟨(one_shot_configure.2.2 obfA0 h0).1, ?_⟩
  exact one_shot_configure.1 obfA1 none (by decide)

/-- C5: resolution of the cyclic scenario (`foo` based on `bar` based on
`foo`) fails with `CircularDependency`; any pass that resolves zero
entries while some remain pending makes the loop fail with
`CircularDependency`; and the fuelled resolution loop never exhausts its
fuel on a registry with distinct keys (JS object keys are distinct), i.e.
resolution terminates for every input registry. -/
theorem cycle_detection_and_termination :
    mkObfuscatorC [cycLayer] = .error .circular ∧
    (∀ (config : Registry) (f : Nat) (r r' : Registry) (np nwb : Nat),
      runPass config r = .ok (r', np, nwb) → nwb ≠ 0 → np = 0 →
      resolveLoop config (f + 1) r = .error .circular) ∧
    (∀ (config : Registry), (keysOf config).Nodup →
      configureC config ≠ .error .outOfFuel) := by
  refine ⟨by decide, ?_, ?_⟩
  · intro config f r r' np nwb hrp hnwb hnp
    simp only [resolveLoop, hrp]
    rw [if_neg hnwb, if_pos hnp]
  · intro config hnd
    exact resolveLoop_no_outOfFuel config hnd (config.length + 1) []
      List.nodup_nil (fun k hk => absurd hk (List.not_mem_nil k))
      (fun e he => absurd he (List.not_mem_nil e)) (by omega)

/-- Witness for C5: the default registry and the merged cyclic registry
both stay clear of fuel exhaustion. -/
theorem cycle_detection_and_termination_witness :
    configureC defaultConfig ≠ .error .outOfFuel ∧
    configureC (buildConfigC [cycLayer]) ≠ .error .outOfFuel := by
  exact ⟨cycle_detection_and_termination.2.2 defaultConfig (by decide),
    cycle_detection_and_termination.2.2 (buildConfigC [cycLayer]) (by decide)⟩

/-- C6: when an entry of a well-named registry has a truthy `base` naming
an algorithm absent from the candidate registry (all missing bases naming
the same absent algorithm), resolution fails with `UnknownAlg` carrying
that base name — and already with fuel for a single pass, i.e. on the
first pass that examines the entry, not deferred to cycle detection.  The
concrete scenario `foo` based on absent `bar` fails with
`UnknownAlg("bar")`. -/
theorem unknown_base_first_pass :
    (∀ (config : Registry) (k₀ : String) (s₀ : AlgSettings) (b : String),
      (keysOf config).Nodup →
      (∀ e ∈ config, e.2.name = some e.1) →
      (k₀, s₀) ∈ config → tbase s₀.base = some b → b ∉ keysOf config →
      (∀ e ∈ config, ∀ b', tbase e.2.base = some b' → b' ∉ keysOf config → b' = b) →
      resolveLoop config 1 [] = .error (.unknownAlg b) ∧
      configureC config = .error (.unknownAlg b)) ∧
    mkObfuscatorC [unknownBaseLayer] = .error (.unknownAlg "bar") := by
  refine ⟨?_, by decide⟩
  intro config k₀ s₀ b hnd hnames hmem hbase hbmiss huniq
  have hrp : runPass config [] = .error (.unknownAlg b) :=
    passFold_unknown config b hnames huniq hbmiss config ([], 0, 0) k₀ s₀
      (fun e he => he) hnd (fun k hk => absurd hk (List.not_mem_nil k)) hmem hbase
      (fun hc => absurd hc (List.not_mem_nil k₀))
  exact ⟨resolveLoop_succ_of_runPass_error config [] _ hrp 0,
    resolveLoop_succ_of_runPass_error config [] _ hrp config.length⟩

/-- Witness for C6: the missing-base scenario fails with `UnknownAlg "bar"`
within a single pass. -/
theorem unknown_base_first_pass_witness :
    resolveLoop (buildConfigC [unknownBaseLayer]) 1 [] = .error (.unknownAlg "bar") := by
  refine (unknown_base_first_pass.1 (buildConfigC [unknownBaseLayer]) "foo"
    (mergeEntry emptySettings
      { emptyPatch with name := some (some "foo"), base := some (some "bar") })
    "bar" (by decide) (by decide) (by decide) (by decide) (by decide) ?_).1
  intro e he b' hb hm
  have hcfg : buildConfigC [unknownBaseLayer] =
      [("DEFAULT", defaultSettings),
       ("foo", mergeEntry emptySettings
         { emptyPatch with name := some (some "foo"), base := some (some "bar") })] := by
    decide
  rw [hcfg] at he
  rcases List.mem_cons.mp he with rfl | he2
  · have hnone : tbase ("DEFAULT", defaultSettings).2.base = none := by decide
    rw [hnone] at hb
    exact Option.noConfusion hb
  · rcases List.mem_cons.mp he2 with rfl | he3
    · have hfoo : tbase (mergeEntry emptySettings
          { emptyPatch with name := some (some "foo"), base := some (some "bar") }).base =
          some "bar" := by decide
      rw [hfoo] at hb
      injection hb with hb2
      exact hb2.symm
    · exact absurd he3 (List.not_mem_nil e)

/-- C8: configuration never raises `PasswordTooShort` (the resolution loop
cannot produce that error, and the concrete short-password registry
resolves successfully), while the first encode or decode use of an
algorithm whose resolved password is shorter than 8 characters fails with
`PasswordTooShort` naming that algorithm's `name`. -/
theorem lazy_short_password :
    (∀ (config : Registry) (f : Nat) (r : Registry) (n : Option String),
      resolveLoop config f r ≠ .error (.passwordTooShort n)) ∧
    (∃ r, mkObfuscatorC [shortPwLayer] = .ok r) ∧
    (∀ (P : CryptoProvider) (reg : Registry) (now : Int) (iv val : List Nat)
       (alg : String) (s : AlgSettings) (pw : String),
      rlookup reg alg = some s → s.password = some pw → pw.length < 8 →
      isAfterCheckDate P.dateParse s.doNotEncodeAfter now = false →
      encodeRaw P reg [] now iv alg val = .error (.passwordTooShort s.name)) ∧
    (∀ (P : CryptoProvider) (reg : Registry) (alg : String) (s : AlgSettings)
       (pw : String) (ivT ctT : List Char),
      rlookup reg alg = some s → s.password = some pw → pw.length < 8 →
      ':' ∉ alg.toList → ':' ∉ ivT → ':' ∉ ctT →
      decodeRaw P reg [] (alg.toList ++ ':' :: (ivT ++ ':' :: ctT)) =
        .error (.passwordTooShort s.name)) := by
  refine ⟨?_, ⟨_, rfl⟩, ?_, ?_⟩
  · intro config f r n hcon
    rcases resolveLoop_error_shape config f r _ hcon with h | h | ⟨b, h⟩ | ⟨a, h⟩ <;>
      exact ObfError.noConfusion h
  · intro P reg now iv val alg s pw hreg hpw hlen hexp
    exact encodeRaw_of_getKey_err P reg [] now iv alg val s _ hreg hexp
      (getKey_fresh_err P [] s _ rfl (generateKey_short P s pw hpw hlen))
  · intro P reg alg s pw ivT ctT hreg hpw hlen halgc hivT hctT
    exact decodeRaw_of_getKey_err P reg [] alg s ivT ctT _ hreg halgc hivT hctT
      (getKey_fresh_err P [] s _ rfl (generateKey_short P s pw hpw hlen))

/-- Witness for C8: the `foo` algorithm, whose resolved password is empty
under the password guard, fails its first encode and decode use with
`PasswordTooShort`, while its configuration succeeded. -/
theorem lazy_short_password_witness :
    encodeRaw toyProvider testRegistry [] 0 [1] "foo" [2] =
      .error (.passwordTooShort (some "foo")) ∧
    decodeRaw toyProvider testRegistry [] ("foo".toList ++ ':' :: ('a' :: [] ++ ':' :: [])) =
      .error (.passwordTooShort (some "foo")) := by
  constructor
  · have h := lazy_short_password.2.2.1 toyProvider testRegistry 0 [1] [2] "foo"
      fooResolved "" (by decide) (by decide) (by decide) (by decide)
    rw [h]
    decide
  · have h := lazy_short_password.2.2.2 toyProvider testRegistry "foo" fooResolved ""
      ('a' :: []) [] (by decide) (by decide) (by decide) (by decide) (by decide)
      (by decide)
    rw [h]
    decide

/-- Counterexample for C4: a config entry whose `base` is present but
empty (`base: ""`) survives resolution of the older `configure` untouched,
so the resolved registry entry still carries a `base` field — `some ""`
rather than the absent `none` the claim requires. -/
theorem resolved_base_field_cex :
    (configureACore (some c4Layer)).map (fun r => (rlookup r "foo").map AlgSettings.base) =
      .ok (some (some "")) ∧ (some "" : Option String) ≠ none := by
  exact ⟨by decide, by decide⟩

/-- C4 (amended): after the older `configure` succeeds, no resolved entry
has a *truthy* base reference — each `base` field is absent or the empty
string — and every entry's `name` equals the registry key it is stored
under; an entry stored under a key different from its `name` makes
resolution fail with `NameMismatch`. -/
theorem resolved_registry_invariant_amended :
    (∀ (cfg : Option Layer) (reg' : Registry), configureACore cfg = .ok reg' →
      ∀ e ∈ reg', tbase e.2.base = none ∧ e.2.name = some e.1) ∧
    configureACore (some mismatchLayer) = .error (.nameMismatch "foo") := by
  refine ⟨?_, by decide⟩
  intro cfg reg' h e he
  have hgen : ∀ (merged : Registry), (keysOf merged).Nodup →
      (match checkNames merged with
        | .error err => (Except.error err : Except ObfError Registry)
        | .ok _ => resolveLoopA (merged.length + 1) merged) = Except.ok reg' →
      tbase e.2.base = none ∧ e.2.name = some e.1 := by
    intro merged hnd hh
    cases hcn : checkNames merged with
    | error err => simp only [hcn] at hh; exact absurd hh (by simp)
    | ok u =>
      cases u
      simp only [hcn] at hh
      exact resolveLoopA_ok_flat _ merged reg' hnd (checkNames_ok merged hcn) hh e he
  cases cfg with
  | none =>
    simp only [configureACore] at h
    exact hgen defaultConfig (by decide) h
  | some l =>
    simp only [configureACore] at h
    exact hgen (applyLayer defaultConfig l) (applyLayer_nodup l defaultConfig (by decide)) h

/-- Witness for the amended C4 at the concrete test configuration: the
resolved `foo` entry has no truthy base and its name matches its key. -/
theorem resolved_registry_invariant_amended_witness :
    tbase fooResolvedA.base = none ∧ fooResolvedA.name = some "foo" := by
  have h : configureACore (some testLayer) = .ok regA := by decide
  have hmem : ("foo", fooResolvedA) ∈ regA := by decide
  exact resolved_registry_invariant_amended.1 (some testLayer) regA h ("foo", fooResolvedA) hmem

/-- Counterexample for C1: an override layer that defines `password` as an
own field with value `undefined` (`c1Patch.password = some none`) does not
force the resolved password to that value — the generic `extend` merge
skips `undefined`, and the resolved entry's password ends up as the empty
string `some ""`, not the layer's `none`. -/
theorem password_guard_cex :
    c1Patch.password = some none ∧
    (mkObfuscatorC [c1Layer]).map (fun r => (rlookup r "foo").map AlgSettings.password) =
      .ok (some (some "")) ∧
    ((some "" : Option String) ≠ none) := by
  exact ⟨rfl, by decide, by decide⟩

/-- C1 (amended): in the newer `configure`, every resolved entry's password
is the merged config entry's own password when that is defined and the
empty string otherwise — the base algorithm's password is never inherited
through the merge.  At the layer level: a layer field `password` with a
*defined* value becomes the entry's merged password, while a layer that is
silent on `password` (or sets it to `undefined`, which `extend` skips)
leaves the merged password unset, so the resolved password becomes `""`. -/
theorem password_guard_amended :
    (∀ (config reg : Registry), (keysOf config).Nodup →
      configureC config = .ok reg →
      ∀ e ∈ reg, ∃ c, rlookup config e.1 = some c ∧
        e.2.password = c.password.orElse (fun _ => some "") ∧ e.2.base = some "") ∧
    (∀ (L : Layer) (k : String) (p : AlgPatch) (pw : String),
      (keysOf L).Nodup → rlookup L k = some p → p.password = some (some pw) →
      k ≠ "DEFAULT" →
      ∀ c, rlookup (buildConfigC [L]) k = some c → c.password = some pw) ∧
    (∀ (L : Layer) (k : String) (p : AlgPatch),
      (keysOf L).Nodup → rlookup L k = some p →
      (p.password = none ∨ p.password = some none) →
      k ≠ "DEFAULT" →
      ∀ c, rlookup (buildConfigC [L]) k = some c → c.password = none) := by
  refine ⟨?_, ?_, ?_⟩
  · intro config reg hnd h e he
    have hinv : PwInv config reg :=
      resolveLoop_ok_PwInv config (config.length + 1) [] reg h List.nodup_nil
        (fun k hk => absurd hk (List.not_mem_nil k))
        (fun x hx => absurd hx (List.not_mem_nil x))
    obtain ⟨c, hcm, hpw, _, hbase⟩ := hinv e he
    exact ⟨c, rlookup_of_mem_nodup config e.1 c hcm hnd, hpw, hbase⟩
  · intro L k p pw hnd hp hpw hne c hc
    have hdf : rlookup defaultConfig k = none := by
      simp only [defaultConfig, rlookup]
      rw [if_neg (fun hcn => hne hcn.symm)]
    have hfresh := rlookup_applyLayer_fresh L defaultConfig k p hnd hp hdf
    have hc2 : rlookup (buildConfigC [L]) k = some (mergeEntry emptySettings p) := hfresh
    rw [hc2] at hc
    injection hc with hc3
    subst hc3
    show patchField none p.password = some pw
    rw [hpw]
    rfl
  · intro L k p hnd hp hpw hne c hc
    have hdf : rlookup defaultConfig k = none := by
      simp only [defaultConfig, rlookup]
      rw [if_neg (fun hcn => hne hcn.symm)]
    have hfresh := rlookup_applyLayer_fresh L defaultConfig k p hnd hp hdf
    have hc2 : rlookup (buildConfigC [L]) k = some (mergeEntry emptySettings p) := hfresh
    rw [hc2] at hc
    injection hc with hc3
    subst hc3
    show patchField none p.password = none
    rcases hpw with hpw | hpw <;> (rw [hpw]; rfl)

/-- Witness for the amended C1: the layer password `"123"` becomes the
merged config password of `foo`, and the resolved `foo` of the test layer
(silent on password) has the empty-string password, not the default
algorithm's. -/
theorem password_guard_amended_witness :
    cfgFooShortC.password = some "123" ∧ fooResolved.password = some "" := by
  constructor
  · exact password_guard_amended.2.1 shortPwLayer "foo" shortPwPatch "123"
      (by decide) (by decide) (by decide) (by decide) cfgFooShortC (by decide)
  · have h : configureC (buildConfigC [testLayer]) = .ok testRegistry := by decide
    obtain ⟨c, hc, hpw, _⟩ := password_guard_amended.1 (buildConfigC [testLayer])
      testRegistry (by decide) h ("foo", fooResolved) (by decide)
    have hcval : c.password = none := by
      have : rlookup (buildConfigC [testLayer]) "foo" =
          some (mergeEntry emptySettings fooPatch) := by decide
      rw [this] at hc
      injection hc with hc2
      subst hc2
      decide
    rw [hpw, hcval]
    rfl

/-- C3: for an algorithm present in the registry with a valid password
(≥ 8 chars) and defined derivation fields, and with the external
collaborators satisfying their contracts (binary codec bidirectional and
colon-free, cipher decrypt inverting encrypt, the configured string
encoding faithful to the default text→bytes conversion), every byte
sequence — including the empty one — and every string round-trips:
decoding the token produced by encoding returns exactly the original. -/
theorem roundtrip_encode_decode :
    ∀ (P : CryptoProvider) (reg : Registry) (now : Int) (iv : List Nat)
      (alg : String) (s : AlgSettings) (pw salt hsh a : String) (iter klen : Nat),
    rlookup reg alg = some s →
    s.password = some pw → 8 ≤ pw.length →
    s.salt = some salt → s.iterations = some iter → s.hash = some hsh →
    s.alg = some a → P.keyLength a = some klen →
    isAfterCheckDate P.dateParse s.doNotEncodeAfter now = false →
    ':' ∉ alg.toList →
    (∀ b, ':' ∉ P.toText s.binEncoding b) →
    (∀ b, P.fromText s.binEncoding (P.toText s.binEncoding b) = b) →
    (∀ k i d, P.decrypt a k i (P.encrypt a k i d) = some d) →
    (∀ l, P.toText s.stringEncoding (P.fromText (some "utf8") l) = l) →
    (∀ (val : List Nat), ∃ tok c,
        encodeBufferFn P reg [] now iv alg val = .ok (tok, c) ∧
        decodeBufferFn P reg c tok = .ok (val, c)) ∧
    (∀ (sv : String), ∃ tok c,
        encodeStringFn P reg [] now iv alg sv = .ok (tok, c) ∧
        decodeStringFn P reg c tok = .ok (sv, c)) := by
  intro P reg now iv alg s pw salt hsh a iter klen hreg hpw hlen hsalt hiter hhash halg
    hklen hexp halgc hnc hft hde hse
  have hgen := generateKey_ok P s pw salt hsh a iter klen hpw hlen hsalt hiter hhash halg hklen
  have hbuf : ∀ (val : List Nat), ∃ tok c,
      encodeRaw P reg [] now iv alg val = .ok (tok, c) ∧
      decodeRaw P reg c tok = .ok (s, val, c) := by
    intro val
    have hgk := getKey_fresh P [] s _ rfl hgen
    have henc := encodeRaw_of_getKey P reg [] _ now iv alg val s _ a hreg hexp hgk halg
    refine ⟨_, _, henc, ?_⟩
    have hck2 : clookup ([] ++ [(s.name, P.pbkdf2 pw salt iter klen hsh)]) s.name =
        some (P.pbkdf2 pw salt iter klen hsh) := by
      simp [clookup]
    have hgk2 := getKey_cached P _ s _ hck2
    have hdec := decodeRaw_of_getKey P reg _ _ alg s _ (P.toText s.binEncoding iv)
      (P.toText s.binEncoding (P.encrypt a (P.pbkdf2 pw salt iter klen hsh) iv val)) a
      hreg halgc (hnc _) (hnc _) hgk2 halg
    rw [hdec, hft iv, hft (P.encrypt a (P.pbkdf2 pw salt iter klen hsh) iv val),
      hde (P.pbkdf2 pw salt iter klen hsh) iv val]
  constructor
  · intro val
    obtain ⟨tok, c, he, hd⟩ := hbuf val
    exact ⟨tok, c, he, by simp only [decodeBufferFn, hd]⟩
  · intro sv
    obtain ⟨tok, c, he, hd⟩ := hbuf (P.fromText (some "utf8") sv.toList)
    refine ⟨tok, c, ?_, ?_⟩
    · simp only [encodeStringFn, hreg, hse]
      exact he
    · simp only [decodeStringFn, hd, hse]
      rfl

/-- Witness for C3: with the concrete witness provider and the `A` entry
of the twin registry, the byte sequence `[1, 2, 3]` and the string
`"Hello world"` both round-trip. -/
theorem roundtrip_encode_decode_witness :
    (∃ tok c, encodeBufferFn toyProvider twinRegistry [] 0 [7] "A" [1, 2, 3] = .ok (tok, c) ∧
      decodeBufferFn toyProvider twinRegistry c tok = .ok ([1, 2, 3], c)) ∧
    (∃ tok c, encodeStringFn toyProvider twinRegistry [] 0 [7] "A" "Hello world" = .ok (tok, c) ∧
      decodeStringFn toyProvider twinRegistry c tok = .ok ("Hello world", c)) := by
  have h := roundtrip_encode_decode toyProvider twinRegistry 0 [7] "A" twinA
    "pw123456" "salt" "h" "c" 3 32 (by decide) (by decide) (by decide) (by decide)
    (by decide) (by decide) (by decide) (by decide) (by decide) (by decide)
    (fun b => toy_toText_no_colon (some "bin") (by decide) b)
    (fun b => toy_fromText_toText (some "bin") (by decide) b)
    (fun k i d => toy_decrypt_encrypt "c" k i d)
    (fun l => toy_se_utf8 l)
  exact ⟨h.1 [1, 2, 3], h.2 "Hello world"⟩

/-- Counterexample for C2: in the configured test program, `foo` (based on
`DEFAULT` with no password override) is *not* interchangeable with
`DEFAULT`: the password guard empties `foo`'s resolved password, so a
`DEFAULT` token whose name prefix is swapped to `foo` fails to decode
(with `PasswordTooShort` rather than returning the plaintext). -/
theorem interchangeability_cex :
    (encodeRaw toyProvider testRegistry [] 0 [3] "DEFAULT" [5, 6]).toOption.map
      (fun p => decodeBufferFn toyProvider testRegistry p.2 (swapName "foo" p.1)) =
      some (.error (.passwordTooShort (some "foo"))) := by
  decide

/-- C2 (amended): (i) two algorithm names whose resolved cipher identifier,
key-derivation fields (password, salt, iterations, hash) and binary
encoding coincide produce interchangeable tokens — a token encoded under
one name decodes to the same plaintext under the other after swapping the
name prefix; (ii) in the configured test program the password guard empties
`foo`'s password, so encoding under `foo` fails `PasswordTooShort` (no
`foo` token exists, refuting the foo/DEFAULT half of the claim); (iii) a
`bar` token re-prefixed to `foo` fails to decode with `PasswordTooShort`;
(iv) a `bar` token re-prefixed to `DEFAULT` never decodes to the original
plaintext, given that decryption under the wrong derived key does not
return it. -/
theorem interchangeability_amended :
    (∀ (P : CryptoProvider) (reg : Registry) (now : Int) (iv : List Nat)
       (n1 n2 : String) (s1 s2 : AlgSettings) (pw salt hsh a : String) (iter klen : Nat)
       (val : List Nat),
      rlookup reg n1 = some s1 → rlookup reg n2 = some s2 →
      s1.name = some n1 → s2.name = some n2 → n1 ≠ n2 →
      s1.alg = some a → s2.alg = some a →
      s1.password = some pw → s2.password = some pw → 8 ≤ pw.length →
      s1.salt = some salt → s2.salt = some salt →
      s1.iterations = some iter → s2.iterations = some iter →
      s1.hash = some hsh → s2.hash = some hsh →
      s1.binEncoding = s2.binEncoding →
      P.keyLength a = some klen →
      isAfterCheckDate P.dateParse s1.doNotEncodeAfter now = false →
      ':' ∉ n1.toList → ':' ∉ n2.toList →
      (∀ b, ':' ∉ P.toText s1.binEncoding b) →
      (∀ b, P.fromText s1.binEncoding (P.toText s1.binEncoding b) = b) →
      (∀ k i d, P.decrypt a k i (P.encrypt a k i d) = some d) →
      ∃ tok c1 c2, encodeRaw P reg [] now iv n1 val = .ok (tok, c1) ∧
        decodeBufferFn P reg c1 (swapName n2 tok) = .ok (val, c2)) ∧
    (∀ (P : CryptoProvider) (now : Int) (iv val : List Nat),
      encodeRaw P testRegistry [] now iv "foo" val =
        .error (.passwordTooShort (some "foo"))) ∧
    (∀ (P : CryptoProvider) (now : Int) (iv val : List Nat) (klen : Nat),
      P.keyLength "aes-256-cbc" = some klen →
      (∀ b, ':' ∉ P.toText (some "base64") b) →
      ∃ tok c1, encodeRaw P testRegistry [] now iv "bar" val = .ok (tok, c1) ∧
        decodeBufferFn P testRegistry c1 (swapName "foo" tok) =
          .error (.passwordTooShort (some "foo"))) ∧
    (∀ (P : CryptoProvider) (now : Int) (iv val : List Nat) (klen : Nat),
      P.keyLength "aes-256-cbc" = some klen →
      (∀ b, ':' ∉ P.toText (some "base64") b) →
      (∀ b, P.fromText (some "base64") (P.toText (some "base64") b) = b) →
      (∀ d, P.decrypt "aes-256-cbc"
          (P.pbkdf2 defaultPw defaultSalt 100000 klen "sha256") iv
          (P.encrypt "aes-256-cbc"
            (P.pbkdf2 "UnitTests" defaultSalt 100000 klen "sha256") iv d) ≠ some d) →
      ∃ tok c1, encodeRaw P testRegistry [] now iv "bar" val = .ok (tok, c1) ∧
        ∀ c2, decodeBufferFn P testRegistry c1 (swapName "DEFAULT" tok) ≠
          .ok (val, c2)) := by
  have hbarlk : rlookup testRegistry "bar" = some barResolved := by decide
  have hfoolk : rlookup testRegistry "foo" = some fooResolved := by decide
  have hdeflk : rlookup testRegistry "DEFAULT" = some defaultResolved := by decide
  have hbarbe : barResolved.binEncoding = some "base64" := by decide
  have hbarexp : ∀ (P : CryptoProvider) (now : Int),
      isAfterCheckDate P.dateParse barResolved.doNotEncodeAfter now = false := by
    intro P now
    rw [show barResolved.doNotEncodeAfter = none from by decide]
    rfl
  have hbargen : ∀ (P : CryptoProvider) (klen : Nat),
      P.keyLength "aes-256-cbc" = some klen →
      generateKey P barResolved =
        .ok (P.pbkdf2 "UnitTests" defaultSalt 100000 klen "sha256") := by
    intro P klen hklen
    exact generateKey_ok P barResolved "UnitTests" defaultSalt "sha256" "aes-256-cbc"
      100000 klen (by decide) (by decide) (by decide) (by decide) (by decide)
      (by decide) hklen
  refine ⟨?_, ?_, ?_, ?_⟩
  · intro P reg now iv n1 n2 s1 s2 pw salt hsh a iter klen val hreg1 hreg2 hname1 hname2
      hne halg1 halg2 hpw1 hpw2 hlen hsalt1 hsalt2 hiter1 hiter2 hhash1 hhash2 hbe hklen
      hexp halgc1 halgc2 hnc hft hde
    rw [hbe] at hnc hft
    have hgen1 := generateKey_ok P s1 pw salt hsh a iter klen hpw1 hlen hsalt1 hiter1
      hhash1 halg1 hklen
    have hgen2 := generateKey_ok P s2 pw salt hsh a iter klen hpw2 hlen hsalt2 hiter2
      hhash2 halg2 hklen
    have hgk := getKey_fresh P [] s1 _ rfl hgen1
    have henc := encodeRaw_of_getKey P reg [] _ now iv n1 val s1 _ a hreg1 hexp hgk halg1
    rw [hbe] at henc
    refine ⟨_, _,
      ([] ++ [(s1.name, P.pbkdf2 pw salt iter klen hsh)]) ++
        [(s2.name, P.pbkdf2 pw salt iter klen hsh)], henc, ?_⟩
    rw [swapName_eq n2 n1.toList _ halgc1]
    have hck : clookup ([] ++ [(s1.name, P.pbkdf2 pw salt iter klen hsh)]) s2.name =
        none := by
      rw [hname1, hname2]
      simp only [List.nil_append, clookup]
      rw [if_neg (by simp [hne])]
    have hgk2 := getKey_fresh P _ s2 _ hck hgen2
    have hdec := decodeRaw_of_getKey P reg _ _ n2 s2 _
      (P.toText s2.binEncoding iv)
      (P.toText s2.binEncoding (P.encrypt a (P.pbkdf2 pw salt iter klen hsh) iv val)) a
      hreg2 halgc2 (hnc _) (hnc _) hgk2 halg2
    simp only [decodeBufferFn, hdec, hft iv,
      hft (P.encrypt a (P.pbkdf2 pw salt iter klen hsh) iv val),
      hde (P.pbkdf2 pw salt iter klen hsh) iv val]
  · intro P now iv val
    have h := lazy_short_password.2.2.1 P testRegistry now iv val "foo" fooResolved ""
      hfoolk (by decide) (by decide) ?hexp
    · rw [h]
      decide
    · rw [show fooResolved.doNotEncodeAfter = none from by decide]
      rfl
  · intro P now iv val klen hklen hnc
    have hgk := getKey_fresh P [] barResolved _ rfl (hbargen P klen hklen)
    have henc := encodeRaw_of_getKey P testRegistry [] _ now iv "bar" val barResolved _
      "aes-256-cbc" hbarlk (hbarexp P now) hgk (by decide)
    rw [hbarbe] at henc
    refine ⟨_, _, henc, ?_⟩
    rw [swapName_eq "foo" "bar".toList _ (by decide)]
    have hck : clookup ([] ++ [(barResolved.name,
        P.pbkdf2 "UnitTests" defaultSalt 100000 klen "sha256")]) fooResolved.name =
        none := by
      rw [show barResolved.name = some "bar" from by decide,
        show fooResolved.name = some "foo" from by decide]
      simp only [List.nil_append, clookup]
      rw [if_neg (by decide)]
    have hshort := generateKey_short P fooResolved "" (by decide) (by decide)
    have hgkerr := getKey_fresh_err P _ fooResolved _ hck hshort
    have hdecerr := decodeRaw_of_getKey_err P testRegistry _ "foo" fooResolved
      (P.toText (some "base64") iv)
      (P.toText (some "base64") (P.encrypt "aes-256-cbc"
        (P.pbkdf2 "UnitTests" defaultSalt 100000 klen "sha256") iv val))
      _ hfoolk (by decide) (hnc _) (hnc _) hgkerr
    simp only [decodeBufferFn, hdecerr]
    rw [show fooResolved.name = some "foo" from by decide]
  · intro P now iv val klen hklen hnc hft hwk
    have hgk := getKey_fresh P [] barResolved _ rfl (hbargen P klen hklen)
    have henc := encodeRaw_of_getKey P testRegistry [] _ now iv "bar" val barResolved _
      "aes-256-cbc" hbarlk (hbarexp P now) hgk (by decide)
    rw [hbarbe] at henc
    refine ⟨_, _, henc, ?_⟩
    rw [swapName_eq "DEFAULT" "bar".toList _ (by decide)]
    have hck : clookup ([] ++ [(barResolved.name,
        P.pbkdf2 "UnitTests" defaultSalt 100000 klen "sha256")]) defaultResolved.name =
        none := by
      rw [show barResolved.name = some "bar" from by decide,
        show defaultResolved.name = some "DEFAULT" from by decide]
      simp only [List.nil_append, clookup]
      rw [if_neg (by decide)]
    have hgendef : generateKey P defaultResolved =
        .ok (P.pbkdf2 defaultPw defaultSalt 100000 klen "sha256") :=
      generateKey_ok P defaultResolved defaultPw defaultSalt "sha256" "aes-256-cbc"
        100000 klen (by decide) (by decide) (by decide) (by decide) (by decide)
        (by decide) hklen
    have hgk2 := getKey_fresh P _ defaultResolved _ hck hgendef
    have hdec := decodeRaw_of_getKey P testRegistry _ _ "DEFAULT" defaultResolved _
      (P.toText (some "base64") iv)
      (P.toText (some "base64") (P.encrypt "aes-256-cbc"
        (P.pbkdf2 "UnitTests" defaultSalt 100000 klen "sha256") iv val))
      "aes-256-cbc" hdeflk (by decide) (hnc _) (hnc _) hgk2 (by decide)
    rw [show defaultResolved.binEncoding = some "base64" from by decide] at hdec
    intro c2 hcon
    simp only [decodeBufferFn, hdec, hft iv,
      hft (P.encrypt "aes-256-cbc"
        (P.pbkdf2 "UnitTests" defaultSalt 100000 klen "sha256") iv val)] at hcon
    cases hdc : P.decrypt "aes-256-cbc"
        (P.pbkdf2 defaultPw defaultSalt 100000 klen "sha256") iv
        (P.encrypt "aes-256-cbc"
          (P.pbkdf2 "UnitTests" defaultSalt 100000 klen "sha256") iv val) with
    | none => rw [hdc] at hcon; exact Except.noConfusion hcon
    | some data =>
      rw [hdc] at hcon
      injection hcon with h2
      have hdata : data = val := congrArg Prod.fst h2
      rw [hdata] at hdc
      exact hwk val hdc

/-- Witness for the amended C2: with the concrete witness provider, the
twin registry's `A`/`B` names are interchangeable by prefix swap; encoding
under `foo` of the test program fails `PasswordTooShort`; a `bar` token
swapped to `foo` fails `PasswordTooShort`; and a `bar` token swapped to
`DEFAULT` does not decode to the original plaintext. -/
theorem interchangeability_amended_witness :
    (∃ tok c1 c2, encodeRaw toyProvider twinRegistry [] 0 [7] "A" [4, 5] = .ok (tok, c1) ∧
      decodeBufferFn toyProvider twinRegistry c1 (swapName "B" tok) = .ok ([4, 5], c2)) ∧
    encodeRaw toyProvider testRegistry [] 0 [3] "foo" [5, 6] =
      .error (.passwordTooShort (some "foo")) ∧
    (∃ tok c1, encodeRaw toyProvider testRegistry [] 0 [3] "bar" [5, 6] = .ok (tok, c1) ∧
      decodeBufferFn toyProvider testRegistry c1 (swapName "foo" tok) =
        .error (.passwordTooShort (some "foo"))) ∧
    (∃ tok c1, encodeRaw toyProvider testRegistry [] 0 [3] "bar" [5, 6] = .ok (tok, c1) ∧
      ∀ c2, decodeBufferFn toyProvider testRegistry c1 (swapName "DEFAULT" tok) ≠
        .ok ([5, 6], c2)) := by
  refine ⟨?_, ?_, ?_, ?_⟩
  · exact interchangeability_amended.1 toyProvider twinRegistry 0 [7] "A" "B" twinA twinB
      "pw123456" "salt" "h" "c" 3 32 [4, 5] (by decide) (by decide) (by decide)
      (by decide) (by decide) (by decide) (by decide) (by decide) (by decide)
      (by decide) (by decide) (by decide) (by decide) (by decide) (by decide)
      (by decide) (by decide) (by decide) (by decide) (by decide) (by decide)
      (fun b => toy_toText_no_colon (some "bin") (by decide) b)
      (fun b => toy_fromText_toText (some "bin") (by decide) b)
      (fun k i d => toy_decrypt_encrypt "c" k i d)
  · exact interchangeability_amended.2.1 toyProvider 0 [3] [5, 6]
  · exact interchangeability_amended.2.2.1 toyProvider 0 [3] [5, 6] 32 (by decide)
      (fun b => toy_toText_no_colon (some "base64") (by decide) b)
  · exact interchangeability_amended.2.2.2 toyProvider 0 [3] [5, 6] 32 (by decide)
      (fun b => toy_toText_no_colon (some "base64") (by decide) b)
      (fun b => toy_fromText_toText (some "base64") (by decide) b)
      (fun d => toy_decrypt_wrong_key "aes-256-cbc"
        (toyProvider.pbkdf2 "UnitTests" defaultSalt 100000 32 "sha256")
        (toyProvider.pbkdf2 defaultPw defaultSalt 100000 32 "sha256") [3] d (by decide))
